import Mathlib

/-!
Verification of the gomm MatrixMarket decoder/encoder (gomm.go).

The Go source is shallowly embedded: the byte stream consumed by the
parser is a list of characters, each Go parsing routine becomes a pure
Lean function threading the remaining stream explicitly, and Go errors
become an explicit error type.  Go float64 values are modelled as exact
rationals; the strconv float formatter/parser pair is modelled as an
exact decimal renderer/reader, which matches Go's value-equivalent
round-trip guarantee for finite floats.  Go int is modelled as
unbounded Int (no claim exercises 64-bit overflow).
-/

namespace Gomm

/-- Byte streams and tokens are lists of characters. -/
abbrev Str := List Char

/-- Whitespace set of unicode.IsSpace restricted to ASCII, as used by
strings.TrimSpace and strings.Fields. -/
def isWS (c : Char) : Bool :=
  c = ' ' || c = '\t' || c = '\n' || c = '\x0b' || c = '\x0c' || c = '\r'

/-- ASCII lower-casing of one character, the fragment of Unicode
simple folding exercised by the MatrixMarket header tokens. -/
def asciiLower (c : Char) : Char :=
  if 'A' ≤ c ∧ c ≤ 'Z' then Char.ofNat (c.toNat + 32) else c

/-- Models strings.ToLower on the ASCII subset. -/
def toLowerStr (s : Str) : Str := s.map asciiLower

/-- Models strings.EqualFold on the ASCII subset. -/
def equalFold (a b : Str) : Bool := toLowerStr a = toLowerStr b

/-- Models bufio.Reader.ReadBytes / ReadString with delimiter a newline:
returns the bytes read (including the newline when found), the rest of
the stream, and whether the delimiter was found (false means the read
ended at end-of-stream, which Go reports as io.EOF alongside the data). -/
def readLine : Str → Str × Str × Bool
  | [] => ([], [], false)
  | c :: rest =>
    if c = '\n' then (['\n'], rest, true)
    else
      let r := readLine rest
      (c :: r.1, r.2.1, r.2.2)

theorem readLine_fst_ne_nil (c : Char) (rest : Str) : (readLine (c :: rest)).1 ≠ [] := by
  simp only [readLine]
  split <;> simp

theorem readLine_length (s : Str) :
    (readLine s).1.length + (readLine s).2.1.length = s.length := by
  induction s with
  | nil => simp [readLine]
  | cons c rest ih =>
    simp only [readLine]
    split
    · simp [Nat.add_comm]
    · simp only [List.length_cons]
      omega

/-- Strips one trailing carriage return, as bufio.ScanLines does. -/
def dropCR (s : Str) : Str :=
  match s.getLast? with
  | some '\r' => s.dropLast
  | _ => s

theorem readLine_parts (s : Str) : (readLine s).1 ++ (readLine s).2.1 = s := by
  induction s with
  | nil => simp [readLine]
  | cons c rest ih =>
    simp only [readLine]
    split
    · simp_all
    · simpa using ih

/-- Accumulator pass of splitLines: collects the current line in
reverse. -/
def splitLinesAux : Str → Str → List Str
  | [], acc => if acc.isEmpty then [] else [dropCR acc.reverse]
  | c :: rest, acc =>
    if c = '\n' then dropCR acc.reverse :: splitLinesAux rest []
    else splitLinesAux rest (c :: acc)

/-- Models bufio.Scanner with ScanLines: the stream split at newlines,
dropping the terminator and one trailing carriage return per line; a
final unterminated fragment is a line, a trailing newline produces no
extra empty line. -/
def splitLines (s : Str) : List Str := splitLinesAux s []

/-- Models strings.Split with a one-character separator: empty fields
are kept, and the result is always nonempty. -/
def splitOn (sep : Char) : Str → List Str
  | [] => [[]]
  | c :: rest =>
    let r := splitOn sep rest
    if c = sep then [] :: r
    else (c :: r.headD []) :: r.tail

/-- Models strings.TrimSpace (ASCII whitespace). -/
def trimSpace (s : Str) : Str :=
  ((s.dropWhile isWS).reverse.dropWhile isWS).reverse

theorem length_dropWhile_le (p : Char → Bool) (l : Str) :
    (l.dropWhile p).length ≤ l.length := by
  induction l with
  | nil => simp [List.dropWhile]
  | cons c rest ih =>
    simp only [List.dropWhile]
    split
    · exact Nat.le_succ_of_le ih
    · exact Nat.le_refl _

/-- Accumulator pass of fields: collects the current token in
reverse. -/
def fieldsAux : Str → Str → List Str
  | [], acc => if acc.isEmpty then [] else [acc.reverse]
  | c :: rest, acc =>
    if isWS c then
      (if acc.isEmpty then fieldsAux rest [] else acc.reverse :: fieldsAux rest [])
    else fieldsAux rest (c :: acc)

/-- Models strings.Fields: splits on runs of whitespace, producing no
empty fields. -/
def fields (s : Str) : List Str := fieldsAux s []

/-- Value of a single decimal digit character, when it is one. -/
def digitVal? (c : Char) : Option Nat :=
  if 48 ≤ c.toNat ∧ c.toNat ≤ 57 then some (c.toNat - 48) else none

/-- Big-endian accumulation of a digit list. -/
def digitsVal (ds : List Nat) : Nat := ds.foldl (fun a d => a * 10 + d) 0

/-- Reads a nonempty all-digit string as a natural number, as the digit
loop of strconv.Atoi does (overflow is not modelled; Go int is embedded
as unbounded Int). -/
def parseDigits? (s : Str) : Option Nat :=
  if s = [] then none
  else if s.all (fun c => (digitVal? c).isSome) then
    some (digitsVal (s.map (fun c => (digitVal? c).getD 0)))
  else none

/-- Models strconv.Atoi: an optional sign followed by at least one
digit, nothing else. -/
def atoi? (s : Str) : Option Int :=
  match s with
  | '-' :: rest => (parseDigits? rest).map (fun n => -(n : Int))
  | '+' :: rest => (parseDigits? rest).map (fun n => (n : Int))
  | _ => (parseDigits? s).map (fun n => (n : Int))

/-- Fuel-driven digit expansion (the fuel argument only bounds the
recursion depth; any fuel at least the number itself is enough). -/
def natDigitsRevAux : Nat → Nat → List Nat
  | 0, _ => []
  | fuel + 1, n => if n = 0 then [] else n % 10 :: natDigitsRevAux fuel (n / 10)

/-- Little-endian decimal digits of a natural number (empty for zero). -/
def natDigitsRev (n : Nat) : List Nat := natDigitsRevAux n n

theorem natDigitsRevAux_irrel :
    ∀ fuel fuel' n : Nat, n ≤ fuel → n ≤ fuel' →
      natDigitsRevAux fuel n = natDigitsRevAux fuel' n := by
  intro fuel
  induction fuel with
  | zero =>
    intro fuel' n h h'
    have hn : n = 0 := by omega
    subst hn
    cases fuel' <;> simp [natDigitsRevAux]
  | succ f ih =>
    intro fuel' n h h'
    cases fuel' with
    | zero =>
      have hn : n = 0 := by omega
      subst hn
      simp [natDigitsRevAux]
    | succ f' =>
      by_cases hn : n = 0
      · subst hn
        simp [natDigitsRevAux]
      · have hdiv : n / 10 < n := Nat.div_lt_self (Nat.pos_of_ne_zero hn) (by omega)
        simp only [natDigitsRevAux, if_neg hn]
        rw [ih f' (n / 10) (by omega) (by omega)]

theorem natDigitsRev_eq (n : Nat) :
    natDigitsRev n = if n = 0 then [] else n % 10 :: natDigitsRev (n / 10) := by
  by_cases hn : n = 0
  · subst hn
    simp [natDigitsRev, natDigitsRevAux]
  · obtain ⟨f, rfl⟩ : ∃ f, n = f + 1 := ⟨n - 1, by omega⟩
    unfold natDigitsRev
    simp only [natDigitsRevAux, if_neg hn]
    have hdiv : (f + 1) / 10 < f + 1 := Nat.div_lt_self (by omega) (by omega)
    rw [natDigitsRevAux_irrel f ((f + 1) / 10) ((f + 1) / 10) (by omega) (by omega)]

/-- Decimal digit characters of a natural number, big-endian. -/
def natToStr (n : Nat) : Str :=
  if n = 0 then ['0']
  else ((natDigitsRev n).map (fun d => Char.ofNat (48 + d))).reverse

/-- Models the %d rendering of fmt.Sprintf for a Go int. -/
def intToStr (k : Int) : Str :=
  if k < 0 then '-' :: natToStr k.natAbs else natToStr k.natAbs

/-- Parses the optional exponent part of a float literal. -/
def parseExp? (s : Str) : Option Int :=
  match s with
  | '-' :: r => (parseDigits? r).map (fun n => -(n : Int))
  | '+' :: r => (parseDigits? r).map (fun n => (n : Int))
  | _ => (parseDigits? s).map (fun n => (n : Int))

/-- Rational value of a decimal literal: mantissa digits, fractional
length, and exponent. -/
def decValue (ds : Nat) (fracLen : Nat) (ex : Int) : ℚ :=
  if 0 ≤ ex then mkRat ((ds * 10 ^ ex.toNat : Nat) : Int) (10 ^ fracLen)
  else mkRat (ds : Int) (10 ^ (fracLen + (-ex).toNat))

/-- Unsigned part of the float grammar: digits with an optional
fractional part (at least one digit in total) and an optional
exponent. -/
def parseUnsigned? (s : Str) : Option ℚ :=
  let dig := fun c => (digitVal? c).isSome
  let ip := s.takeWhile dig
  let s2 := s.dropWhile dig
  let q : Str × Str :=
    match s2 with
    | '.' :: r => (r.takeWhile dig, r.dropWhile dig)
    | _ => ([], s2)
  if ip = [] ∧ q.1 = [] then none
  else
    let ex? : Option Int :=
      match q.2 with
      | [] => some 0
      | 'e' :: r => parseExp? r
      | 'E' :: r => parseExp? r
      | _ => none
    match ex? with
    | none => none
    | some ex =>
      some (decValue (digitsVal ((ip ++ q.1).map (fun c => (digitVal? c).getD 0)))
        q.1.length ex)

/-- Models strconv.ParseFloat on decimal notation, with exact rational
values in place of rounded float64 values: an optional sign followed
by the unsigned grammar.  Hexadecimal floats and the Inf and NaN
literals of Go are outside the fragment the program exercises and are
not modelled. -/
def parseFloat? (s : Str) : Option ℚ :=
  match s with
  | '-' :: r => (parseUnsigned? r).map (fun v => -v)
  | '+' :: r => parseUnsigned? r
  | _ => parseUnsigned? s

/-- Fuel-driven factor extraction (any fuel at least n suffices). -/
def factorOutAux : Nat → Nat → Nat → Nat × Nat
  | 0, _, n => (0, n)
  | fuel + 1, p, n =>
    if 2 ≤ p ∧ n ≠ 0 ∧ n % p = 0 then
      let r := factorOutAux fuel p (n / p)
      (r.1 + 1, r.2)
    else (0, n)

/-- Extracts the multiplicity of a prime p from n: returns (k, m) with
n equal to p to the k times m, where p does not divide m. -/
def factorOut (p n : Nat) : Nat × Nat := factorOutAux n p n

theorem factorOutAux_irrel :
    ∀ fuel fuel' p n : Nat, n ≤ fuel → n ≤ fuel' →
      factorOutAux fuel p n = factorOutAux fuel' p n := by
  intro fuel
  induction fuel with
  | zero =>
    intro fuel' p n h h'
    have hn : n = 0 := by omega
    subst hn
    cases fuel' <;> simp [factorOutAux]
  | succ f ih =>
    intro fuel' p n h h'
    cases fuel' with
    | zero =>
      have hn : n = 0 := by omega
      subst hn
      simp [factorOutAux]
    | succ f' =>
      by_cases hc : 2 ≤ p ∧ n ≠ 0 ∧ n % p = 0
      · have hdiv : n / p < n := Nat.div_lt_self (Nat.pos_of_ne_zero hc.2.1) hc.1
        simp only [factorOutAux, if_pos hc]
        rw [ih f' p (n / p) (by omega) (by omega)]
      · simp only [factorOutAux, if_neg hc]

theorem factorOut_eq (p n : Nat) :
    factorOut p n =
      if 2 ≤ p ∧ n ≠ 0 ∧ n % p = 0 then
        ((factorOut p (n / p)).1 + 1, (factorOut p (n / p)).2)
      else (0, n) := by
  by_cases hc : 2 ≤ p ∧ n ≠ 0 ∧ n % p = 0
  · obtain ⟨f, rfl⟩ : ∃ f, n = f + 1 := ⟨n - 1, by omega⟩
    have hdiv : (f + 1) / p < f + 1 := Nat.div_lt_self (by omega) hc.1
    unfold factorOut
    simp only [factorOutAux, if_pos hc]
    rw [factorOutAux_irrel f ((f + 1) / p) p ((f + 1) / p) (by omega) (by omega)]
  · cases n with
    | zero => simp [factorOut, factorOutAux, hc]
    | succ f =>
      unfold factorOut
      simp only [factorOutAux, if_neg hc]

/-- Minimal decimal exponent k with d dividing 10 to the k, for a
denominator d whose prime factors are 2 and 5: the multiplicity of 2,
then of 5 in the remaining cofactor. -/
def decExp (d : Nat) : Nat := max (factorOut 2 d).1 (factorOut 5 ((factorOut 2 d).2)).1

/-- Holds when the rational is exactly representable as a finite
decimal, as every float64 value is. -/
def isDecimalRat (q : ℚ) : Bool := (factorOut 5 ((factorOut 2 q.den).2)).2 = 1

/-- Digit characters of a natural mantissa, left-padded with zeros so
that a decimal point k places from the right still has a digit before
it. -/
def padDigits (m k : Nat) : Str :=
  let ds0 := natToStr m
  if ds0.length ≤ k then List.replicate (k + 1 - ds0.length) '0' ++ ds0 else ds0

/-- Unsigned decimal rendering of a mantissa m scaled by 10 to the
minus k: the padded digits with a point inserted k places from the
right (no point when k is zero). -/
def decBody (m k : Nat) : Str :=
  let ds := padDigits m k
  if k = 0 then ds else ds.take (ds.length - k) ++ '.' :: ds.drop (ds.length - k)

/-- Signed decimal rendering of an integer mantissa scaled by 10 to
the minus k. -/
def renderDec (mant : Int) (k : Nat) : Str :=
  if mant < 0 then '-' :: decBody mant.natAbs k else decBody mant.natAbs k

/-- Models the %v rendering of a float64 (strconv.FormatFloat with the
shortest round-tripping representation): an exact decimal string with
no forced trailing zeros.  The scientific notation Go switches to at
extreme magnitudes is not modelled; the rendering here is
value-equivalent, which is what the format guarantees. -/
def fmtFloat (q : ℚ) : Str :=
  renderDec (q.num * (((10 : Nat) ^ decExp q.den / q.den : Nat) : Int)) (decExp q.den)

/-! ## Data model of gomm.go -/

/-- Errors returned by the parser; each constructor is one of the
error returns of the Go source (fmt.Errorf calls carrying the shown
payload, the io.EOF value, or a Go runtime panic such as an
out-of-range slice write, which the embedding surfaces as an error
value since a panic also aborts the parse). -/
inductive GoErr where
  | eof
  | headerTokenCount (tokens : List Str)
  | headerSentinel (tok : Str)
  | headerObject (tok : Str)
  | headerFormat (tok : Str)
  | headerElemType (tok : Str)
  | headerSymmetry (tok : Str)
  | dimTwo (dims : List Str)
  | dimThree (dims : List Str)
  | atoiErr (tok : Str)
  | floatErr (tok : Str)
  | tripletCount (line : Str)
  | emptyDims (n m : Int)
  | notSupportedFormat (format : Str)
  | runtimePanic
deriving DecidableEq

instance {ε α : Type} [DecidableEq ε] [DecidableEq α] : DecidableEq (Except ε α)
  | .error e, .error f =>
    if h : e = f then .isTrue (by rw [h])
    else .isFalse (fun hc => h (Except.error.inj hc))
  | .error _, .ok _ => .isFalse (fun hc => Except.noConfusion hc)
  | .ok _, .error _ => .isFalse (fun hc => Except.noConfusion hc)
  | .ok a, .ok b =>
    if h : a = b then .isTrue (by rw [h])
    else .isFalse (fun hc => h (Except.ok.inj hc))

/-- Supported storage formats (const block of gomm.go). -/
def FormatArray : Str := "array".data

/-- Coordinate storage format constant. -/
def FormatCoordinate : Str := "coordinate".data

/-- Element type constant for real values. -/
def TypeReal : Str := "real".data

/-- Element type constants; the source swaps the names TypeInteger and
TypeComplex against their string values, which the embedding mirrors
verbatim. -/
def TypeInteger : Str := "complex".data

/-- Element type constant whose value is the integer keyword. -/
def TypeComplex : Str := "integer".data

/-- Element type constant for pattern matrices. -/
def TypePattern : Str := "pattern".data

/-- Symmetry constant for general matrices. -/
def General : Str := "general".data

/-- Symmetry constant for symmetric matrices. -/
def Symmetric : Str := "symmetric".data

/-- Symmetry constant for skew-symmetric matrices. -/
def SkewSymmetric : Str := "skew-symmetric".data

/-- Symmetry constant for hermitian matrices. -/
def Hermitian : Str := "hermitian".data

/-- Models the COO accumulator of the external sparse library: the
dimensions and the ordered list of Set calls. -/
structure COO where
  n : Int
  m : Int
  inserts : List (Int × Int × ℚ)
deriving DecidableEq

/-- Models COO.Set of the sparse library: appends the triple, and
panics when the indices fall outside the dimensions. -/
def cooSet (c : COO) (i j : Int) (v : ℚ) : Except GoErr COO :=
  if 0 ≤ i ∧ i < c.n ∧ 0 ≤ j ∧ j < c.m then
    .ok { c with inserts := c.inserts ++ [(i, j, v)] }
  else .error .runtimePanic

/-- The assembled matrix: a CSR sparse matrix (entry list with distinct
coordinates) or a row-major dense matrix, the two concrete types the
program stores behind the mat.Matrix interface. -/
inductive MatVal where
  | csr (n m : Int) (entries : List (Int × Int × ℚ))
  | dense (n m : Nat) (data : List ℚ)
deriving DecidableEq

/-- Compaction of duplicate coordinates, keeping the last write, which
is the overwrite-style duplicate handling the spec attributes to the
observed sparse assembly.  Every theorem below that reads values back
only does so under distinct coordinates, where any duplicate policy
coincides. -/
def dedupLast : List (Int × Int × ℚ) → List (Int × Int × ℚ)
  | [] => []
  | e :: rest =>
    if rest.any (fun f => decide (f.1 = e.1 ∧ f.2.1 = e.2.1)) then dedupLast rest
    else e :: dedupLast rest

/-- Conversion COO.ToCSR of the sparse library, on the model. -/
def csrOfCOO (c : COO) : MatVal := .csr c.n c.m (dedupLast c.inserts)

/-- Looks up the stored value at a coordinate of a CSR entry list. -/
def findVal? (es : List (Int × Int × ℚ)) (i j : Int) : Option ℚ :=
  (es.find? (fun e => decide (e.1 = i ∧ e.2.1 = j))).map (fun e => e.2.2)

/-- Models the At method of the assembled matrix (absent entries of a
sparse matrix read as zero; indices are in bounds in every use below). -/
def matAt : MatVal → Int → Int → ℚ
  | .csr _ _ es, i, j => (findVal? es i j).getD 0
  | .dense _ m data, i, j =>
    if 0 ≤ i ∧ 0 ≤ j then data.getD (i.toNat * m + j.toNat) 0 else 0

/-- Stored-entry count of the assembled matrix (NNZ of the sparse
library CSR). -/
def matNNZ : MatVal → Nat
  | .csr _ _ es => es.length
  | .dense n m _ => n * m

/-- The Matrix struct of gomm.go, restricted to the fields the parsing
core reads or writes.  The Go field named Type is called Typ here
because Type is a Lean keyword. -/
structure Matrix where
  comment : Str := []
  Format : Str := []
  Typ : Str := []
  Symmetry : Str := []
  n : Int := 0
  m : Int := 0
  lines : Int := 0
  mat : Option MatVal := none
deriving DecidableEq

/-- Dims returns the dimensions of the matrix. -/
def Matrix.Dims (mx : Matrix) : Int × Int := (mx.n, mx.m)

/-! ## The parsing stages of gomm.go -/

/-- ParseHeader of gomm.go: reads the first line, splits the trimmed
line on single spaces, requires five tokens, matches the sentinel and
the object case-insensitively and the three remaining tokens against
their enumerations after lower-casing, storing the matched constants. -/
def ParseHeader (mx : Matrix) (s : Str) : Except GoErr (Matrix × Str) :=
  let r := readLine s
  let tokens := splitOn ' ' (trimSpace r.1)
  if tokens.length ≠ 5 then .error (.headerTokenCount tokens)
  else if ¬ equalFold (tokens.getD 0 []) "%%MatrixMarket".data then
    .error (.headerSentinel (tokens.getD 0 []))
  else if ¬ equalFold (tokens.getD 1 []) "matrix".data then
    .error (.headerObject (tokens.getD 1 []))
  else
    let t2 := toLowerStr (tokens.getD 2 [])
    let t3 := toLowerStr (tokens.getD 3 [])
    let t4 := toLowerStr (tokens.getD 4 [])
    if t2 ≠ FormatArray ∧ t2 ≠ FormatCoordinate then
      .error (.headerFormat (tokens.getD 2 []))
    else if t3 ≠ TypeReal ∧ t3 ≠ TypeComplex ∧ t3 ≠ TypeInteger ∧ t3 ≠ TypePattern then
      .error (.headerElemType (tokens.getD 3 []))
    else if t4 ≠ General ∧ t4 ≠ Symmetric ∧ t4 ≠ SkewSymmetric ∧ t4 ≠ Hermitian then
      .error (.headerSymmetry (tokens.getD 4 []))
    else .ok ({ mx with Format := t2, Typ := t3, Symmetry := t4 }, r.2.1)

/-- Fuel-driven comment loop (any fuel at least the stream length
suffices, since every consumed line is nonempty). -/
def commentLoopAux : Nat → Str → Str × Str
  | 0, s => ([], s)
  | fuel + 1, s =>
    match s with
    | [] => ([], [])
    | c :: rest =>
      if c = '%' ∨ c = '\n' ∨ c = ' ' ∨ c = '\t' then
        let r := readLine (c :: rest)
        let r2 := commentLoopAux fuel r.2.1
        (r.1 ++ r2.1, r2.2)
      else ([], c :: rest)

/-- Comment loop of ParseComment: while the peeked byte is a percent
sign, newline, space or tab, consume the full line (end-of-stream ends
the line without error) and accumulate its raw bytes. -/
def commentLoop (s : Str) : Str × Str := commentLoopAux s.length s

theorem commentLoopAux_irrel :
    ∀ fuel fuel' (s : Str), s.length ≤ fuel → s.length ≤ fuel' →
      commentLoopAux fuel s = commentLoopAux fuel' s := by
  intro fuel
  induction fuel with
  | zero =>
    intro fuel' s h h'
    have hn : s = [] := List.length_eq_zero.mp (by omega)
    subst hn
    cases fuel' <;> simp [commentLoopAux]
  | succ f ih =>
    intro fuel' s h h'
    cases fuel' with
    | zero =>
      have hn : s = [] := List.length_eq_zero.mp (by omega)
      subst hn
      simp [commentLoopAux]
    | succ f' =>
      cases s with
      | nil => simp [commentLoopAux]
      | cons c rest =>
        simp only [commentLoopAux]
        split
        · have h1 := readLine_length (c :: rest)
          have h2 := readLine_fst_ne_nil c rest
          have h3 : (readLine (c :: rest)).1.length ≠ 0 := by
            intro hz
            exact h2 (List.length_eq_zero.mp hz)
          simp only [List.length_cons] at h1 h h'
          rw [ih f' (readLine (c :: rest)).2.1 (by omega) (by omega)]
        · rfl

theorem commentLoop_nil : commentLoop [] = ([], []) := rfl

theorem commentLoop_cons (c : Char) (rest : Str) :
    commentLoop (c :: rest) =
      if c = '%' ∨ c = '\n' ∨ c = ' ' ∨ c = '\t' then
        ((readLine (c :: rest)).1 ++ (commentLoop (readLine (c :: rest)).2.1).1,
          (commentLoop (readLine (c :: rest)).2.1).2)
      else ([], c :: rest) := by
  unfold commentLoop
  simp only [List.length_cons, commentLoopAux]
  split
  · have h1 := readLine_length (c :: rest)
    have h2 := readLine_fst_ne_nil c rest
    have h3 : (readLine (c :: rest)).1.length ≠ 0 := by
      intro hz
      exact h2 (List.length_eq_zero.mp hz)
    simp only [List.length_cons] at h1
    rw [commentLoopAux_irrel rest.length (readLine (c :: rest)).2.1.length
      (readLine (c :: rest)).2.1 (by omega) (by omega)]
  · rfl

/-- ParseComment of gomm.go: accumulates comment and blank lines; the
comment field is set only when the accumulator is nonempty.
End-of-stream is not an error. -/
def ParseComment (mx : Matrix) (s : Str) : Except GoErr (Matrix × Str) :=
  let r := commentLoop s
  .ok ((if r.1.length > 0 then { mx with comment := r.1 } else mx), r.2)

/-- ParseDimensions of gomm.go: reads one line (a missing terminating
newline surfaces the io.EOF of ReadString as an error), splits the
trimmed line on single spaces, requires at least two integer tokens
for rows and cols; for the array format the line count is rows times
cols, otherwise a third integer token is required. -/
def ParseDimensions (mx : Matrix) (s : Str) : Except GoErr (Matrix × Str) :=
  let r := readLine s
  if !r.2.2 then .error .eof
  else
    let dims := splitOn ' ' (trimSpace r.1)
    if dims.length < 2 then .error (.dimTwo dims)
    else
      match atoi? (dims.getD 0 []) with
      | none => .error (.atoiErr (dims.getD 0 []))
      | some n =>
        match atoi? (dims.getD 1 []) with
        | none => .error (.atoiErr (dims.getD 1 []))
        | some m =>
          if mx.Format = FormatArray then
            .ok ({ mx with n := n, m := m, lines := n * m }, r.2.1)
          else if dims.length < 3 then .error (.dimThree dims)
          else
            match atoi? (dims.getD 2 []) with
            | none => .error (.atoiErr (dims.getD 2 []))
            | some lines => .ok ({ mx with n := n, m := m, lines := lines }, r.2.1)

/-- splitTriplet of gomm.go: a body line split on whitespace runs into
exactly three fields, two integer indices and one float value. -/
def splitTriplet (s : Str) : Except GoErr (Int × Int × ℚ) :=
  let splits := fields (trimSpace s)
  if splits.length ≠ 3 then .error (.tripletCount s)
  else
    match atoi? (splits.getD 0 []) with
    | none => .error (.atoiErr (splits.getD 0 []))
    | some i =>
      match atoi? (splits.getD 1 []) with
      | none => .error (.atoiErr (splits.getD 1 []))
      | some j =>
        match parseFloat? (splits.getD 2 []) with
        | none => .error (.floatErr (splits.getD 2 []))
        | some v => .ok (i, j, v)

/-- Scanner loop of ParseCoordinate: parses each line as a triplet,
drops explicit zeros (on float64 values the SmallestNonzeroFloat64
magnitude test holds exactly for plus and minus zero, embedded as the
rational zero), inserts the one-based-corrected entry, and mirrors
off-diagonal entries for the symmetric and skew-symmetric symmetries. -/
def cooLoop (sym : Str) (coo : COO) : List Str → Except GoErr COO
  | [] => .ok coo
  | line :: rest =>
    match splitTriplet line with
    | .error e => .error e
    | .ok (i, j, v) =>
      if v = 0 then cooLoop sym coo rest
      else
        match cooSet coo (i - 1) (j - 1) v with
        | .error e => .error e
        | .ok coo1 =>
          let next : Except GoErr COO :=
            if i ≠ j then
              if sym = Symmetric then cooSet coo1 (j - 1) (i - 1) v
              else if sym = SkewSymmetric then cooSet coo1 (j - 1) (i - 1) (-v)
              else .ok coo1
            else .ok coo1
          match next with
          | .error e => .error e
          | .ok coo2 => cooLoop sym coo2 rest

/-- ParseCoordinate of gomm.go: rejects empty dimensions, then runs the
scanner loop over the remaining lines and stores the CSR conversion.
A negative dimension or declared line count would panic inside make or
the sparse library; the embedding surfaces that as runtimePanic. -/
def ParseCoordinate (mx : Matrix) (s : Str) : Except GoErr (Matrix × Str) :=
  if mx.n = 0 ∨ mx.m = 0 then .error (.emptyDims mx.n mx.m)
  else if mx.lines < 0 ∨ mx.n < 0 ∨ mx.m < 0 then .error .runtimePanic
  else
    match cooLoop mx.Symmetry ⟨mx.n, mx.m, []⟩ (splitLines s) with
    | .error e => .error e
    | .ok coo => .ok ({ mx with mat := some (csrOfCOO coo) }, [])

/-- Scanner loop of ParseArrayFormat: parses one float per line into
the fixed rows-times-cols buffer at the running counter; a write past
the end of the buffer is the out-of-range slice panic of the Go code,
surfaced as runtimePanic. -/
def arrayLoop : List Str → List ℚ → Nat → Except GoErr (List ℚ)
  | [], values, _ => .ok values
  | line :: rest, values, cnt =>
    match parseFloat? (trimSpace line) with
    | none => .error (.floatErr (trimSpace line))
    | some v =>
      if cnt < values.length then arrayLoop rest (values.set cnt v) (cnt + 1)
      else .error .runtimePanic

/-- Reordering loop of ParseArrayFormat: the dense row-major data with
entry (r, c) equal to the value at column-major index c times rows
plus r. -/
def denseFromColMajor (nr nc : Nat) (values : List ℚ) : List ℚ :=
  (List.range (nr * nc)).map (fun idx => values.getD ((idx % nc) * nr + idx / nc) 0)

/-- ParseArrayFormat of gomm.go: rejects empty dimensions, fills the
rows-times-cols value buffer from the scanner, and stores the dense
matrix reordered from column-major to row-major. -/
def ParseArrayFormat (mx : Matrix) (s : Str) : Except GoErr (Matrix × Str) :=
  if mx.n = 0 ∨ mx.m = 0 then .error (.emptyDims mx.n mx.m)
  else if mx.n < 0 ∨ mx.m < 0 then .error .runtimePanic
  else
    match arrayLoop (splitLines s) (List.replicate (mx.n * mx.m).toNat 0) 0 with
    | .error e => .error e
    | .ok values =>
      .ok ({ mx with
              mat := some (.dense mx.n.toNat mx.m.toNat
                (denseFromColMajor mx.n.toNat mx.m.toNat values)) }, [])

/-- ParseMatrix of gomm.go: dispatches on the storage format. -/
def ParseMatrix (mx : Matrix) (s : Str) : Except GoErr (Matrix × Str) :=
  if mx.Format = FormatCoordinate then ParseCoordinate mx s
  else if mx.Format = FormatArray then ParseArrayFormat mx s
  else .error (.notSupportedFormat mx.Format)

/-- Parse of gomm.go: header, comment, dimensions, then the body; an
io.EOF escaping the body parser is tolerated. -/
def Parse (mx : Matrix) (s : Str) : Except GoErr (Matrix × Str) :=
  match ParseHeader mx s with
  | .error e => .error e
  | .ok (mx1, s1) =>
    match ParseComment mx1 s1 with
    | .error e => .error e
    | .ok (mx2, s2) =>
      match ParseDimensions mx2 s2 with
      | .error e => .error e
      | .ok (mx3, s3) =>
        match ParseMatrix mx3 s3 with
        | .error e => if e = .eof then .ok (mx3, s3) else .error e
        | .ok r => .ok r

/-- Header line emitted by SaveToMatrixMarket for sparse matrices. -/
def headerLineCoord : Str := "%%MatrixMarket matrix coordinate real general\n".data

/-- Header line emitted by SaveToMatrixMarket for dense matrices. -/
def headerLineArray : Str := "%%MatrixMarket matrix array real general\n".data

/-- One output line of the sparse writer: one-based indices and the
value, space-separated and newline-terminated. -/
def entryLine (e : Int × Int × ℚ) : Str :=
  intToStr (e.1 + 1) ++ ' ' :: intToStr (e.2.1 + 1) ++ ' ' :: fmtFloat e.2.2 ++ ['\n']

/-- SaveToMatrixMarket of gomm.go: for a CSR matrix, the coordinate
header, the dimension line with the stored-entry count, and one line
per stored entry in storage order; for a dense matrix, the array
header, the dimension line, and the values in column-major order. -/
def SaveToMatrixMarket : MatVal → Str
  | .csr n m es =>
    headerLineCoord
      ++ intToStr n ++ ' ' :: intToStr m ++ ' ' :: intToStr es.length ++ '\n'
      :: es.flatMap entryLine
  | .dense nr nc data =>
    headerLineArray
      ++ intToStr nr ++ ' ' :: intToStr nc ++ '\n'
      :: (List.range (nr * nc)).flatMap
          (fun idx => fmtFloat (data.getD ((idx % nr) * nc + idx / nr) 0) ++ ['\n'])

/-- Modelled from the spec: the mirroring rule of one coordinate entry,
stated the way the spec words it (insert the corrected entry; when off
the diagonal also insert the mirrored entry for symmetric, the negated
mirrored entry for skew-symmetric, and nothing extra otherwise).  Used
only in theorem statements, to be compared against the source loop. -/
def specMirrorExpansion (sym : Str) (t : Int × Int × ℚ) : List (Int × Int × ℚ) :=
  (t.1 - 1, t.2.1 - 1, t.2.2) ::
    (if t.1 ≠ t.2.1 then
      (if sym = Symmetric then [(t.2.1 - 1, t.1 - 1, t.2.2)]
       else if sym = SkewSymmetric then [(t.2.1 - 1, t.1 - 1, -t.2.2)]
       else [])
     else [])

/-- Effect of the array-format scanner loop on the value buffer:
sequential writes starting at an index. -/
def writeSeq (values : List ℚ) (cnt : Nat) : List ℚ → List ℚ
  | [] => values
  | v :: vs => writeSeq (values.set cnt v) (cnt + 1) vs

/-- Coordinates of two sparse entries differ. -/
def coordNe (a b : Int × Int × ℚ) : Prop := (a.1, a.2.1) ≠ (b.1, b.2.1)

instance (a b : Int × Int × ℚ) : Decidable (coordNe a b) := by
  unfold coordNe
  infer_instance

/-! ## Tokenizer lemmas -/

theorem readLine_append (a b : Str) (ha : '\n' ∉ a) :
    readLine (a ++ '\n' :: b) = (a ++ ['\n'], b, true) := by
  induction a with
  | nil => simp [readLine]
  | cons c t ih =>
    have hc : c ≠ '\n' := fun h => ha (h ▸ List.mem_cons_self c t)
    have ht : '\n' ∉ t := fun h => ha (List.mem_cons_of_mem c h)
    simp [readLine, hc, ih ht]

theorem readLine_eof (a : Str) (ha : '\n' ∉ a) : readLine a = (a, [], false) := by
  induction a with
  | nil => simp [readLine]
  | cons c t ih =>
    have hc : c ≠ '\n' := fun h => ha (h ▸ List.mem_cons_self c t)
    have ht : '\n' ∉ t := fun h => ha (List.mem_cons_of_mem c h)
    simp [readLine, hc, ih ht]

theorem dropCR_eq_self (l : Str) (h : l.getLast? ≠ some '\r') : dropCR l = l := by
  unfold dropCR
  split
  · next heq => exact absurd heq h
  · rfl

theorem splitLinesAux_newline (a : Str) :
    ∀ (acc : Str) (b : Str), '\n' ∉ a →
      splitLinesAux (a ++ '\n' :: b) acc
        = dropCR (acc.reverse ++ a) :: splitLinesAux b [] := by
  induction a with
  | nil =>
    intro acc b _
    simp [splitLinesAux]
  | cons c t ih =>
    intro acc b ha
    have hc : c ≠ '\n' := fun h => ha (h ▸ List.mem_cons_self c t)
    have ht : '\n' ∉ t := fun h => ha (List.mem_cons_of_mem c h)
    rw [List.cons_append]
    show splitLinesAux (c :: (t ++ '\n' :: b)) acc = _
    rw [splitLinesAux]
    rw [if_neg hc, ih (c :: acc) b ht]
    simp [List.append_assoc]

theorem splitLinesAux_eof (a : Str) :
    ∀ acc : Str, '\n' ∉ a → acc.reverse ++ a ≠ [] →
      splitLinesAux a acc = [dropCR (acc.reverse ++ a)] := by
  induction a with
  | nil =>
    intro acc _ hne
    rw [splitLinesAux]
    rw [List.append_nil] at hne
    rw [if_neg (by simpa [List.isEmpty_iff] using hne)]
    simp
  | cons c t ih =>
    intro acc ha _
    have hc : c ≠ '\n' := fun h => ha (h ▸ List.mem_cons_self c t)
    have ht : '\n' ∉ t := fun h => ha (List.mem_cons_of_mem c h)
    rw [splitLinesAux, if_neg hc, ih (c :: acc) ht (by simp)]
    simp [List.append_assoc]

theorem splitLines_cons_of (a b : Str) (ha : '\n' ∉ a) (hcr : a.getLast? ≠ some '\r') :
    splitLines (a ++ '\n' :: b) = a :: splitLines b := by
  unfold splitLines
  rw [splitLinesAux_newline a [] b ha]
  simp [dropCR_eq_self _ hcr]

theorem splitLines_eof (a : Str) (hne : a ≠ []) (ha : '\n' ∉ a)
    (hcr : a.getLast? ≠ some '\r') : splitLines a = [a] := by
  unfold splitLines
  rw [splitLinesAux_eof a [] ha (by simpa using hne)]
  simp [dropCR_eq_self _ hcr]

theorem splitOn_not_mem (sep : Char) (a : Str) (ha : sep ∉ a) : splitOn sep a = [a] := by
  induction a with
  | nil => rfl
  | cons c t ih =>
    have hc : c ≠ sep := fun h => ha (h ▸ List.mem_cons_self c t)
    have ht : sep ∉ t := fun h => ha (List.mem_cons_of_mem c h)
    simp [splitOn, hc, ih ht]

theorem splitOn_append (sep : Char) (a b : Str) (ha : sep ∉ a) :
    splitOn sep (a ++ sep :: b) = a :: splitOn sep b := by
  induction a with
  | nil => simp [splitOn]
  | cons c t ih =>
    have hc : c ≠ sep := fun h => ha (h ▸ List.mem_cons_self c t)
    have ht : sep ∉ t := fun h => ha (List.mem_cons_of_mem c h)
    simp [splitOn, hc, ih ht]

theorem fieldsAux_token_sep (a : Str) :
    ∀ (acc : Str) (b : Str), (∀ c ∈ a, isWS c = false) → acc.reverse ++ a ≠ [] →
      fieldsAux (a ++ ' ' :: b) acc = (acc.reverse ++ a) :: fieldsAux b [] := by
  induction a with
  | nil =>
    intro acc b _ hne
    rw [List.nil_append, fieldsAux]
    rw [if_pos (by decide)]
    rw [List.append_nil] at hne
    rw [if_neg (by simpa [List.isEmpty_iff] using hne)]
    simp
  | cons c t ih =>
    intro acc b ha _
    have hc := ha c (List.mem_cons_self c t)
    have htt : ∀ x ∈ t, isWS x = false := fun x hm => ha x (List.mem_cons_of_mem _ hm)
    rw [List.cons_append]
    show fieldsAux (c :: (t ++ ' ' :: b)) acc = _
    rw [fieldsAux, if_neg (by simp [hc]), ih (c :: acc) b htt (by simp)]
    simp [List.append_assoc]

theorem fieldsAux_token_eof (a : Str) :
    ∀ acc : Str, (∀ c ∈ a, isWS c = false) → acc.reverse ++ a ≠ [] →
      fieldsAux a acc = [acc.reverse ++ a] := by
  induction a with
  | nil =>
    intro acc _ hne
    rw [fieldsAux]
    rw [List.append_nil] at hne
    rw [if_neg (by simpa [List.isEmpty_iff] using hne)]
    simp
  | cons c t ih =>
    intro acc ha _
    have hc := ha c (List.mem_cons_self c t)
    have htt : ∀ x ∈ t, isWS x = false := fun x hm => ha x (List.mem_cons_of_mem _ hm)
    rw [fieldsAux, if_neg (by simp [hc]), ih (c :: acc) htt (by simp)]
    simp [List.append_assoc]

theorem fields_append_sep (a b : Str) (hne : a ≠ []) (ha : ∀ c ∈ a, isWS c = false) :
    fields (a ++ ' ' :: b) = a :: fields b := by
  unfold fields
  rw [fieldsAux_token_sep a [] b ha (by simpa using hne)]
  simp

theorem fields_all_token (a : Str) (hne : a ≠ []) (ha : ∀ c ∈ a, isWS c = false) :
    fields a = [a] := by
  unfold fields
  rw [fieldsAux_token_eof a [] ha (by simpa using hne)]
  simp

theorem dropWhile_eq_self_of_head (p : Char → Bool) (l : Str)
    (h : ∀ c, l.head? = some c → p c = false) : l.dropWhile p = l := by
  cases l with
  | nil => rfl
  | cons c t => simp [List.dropWhile_cons, h c rfl]

theorem trimSpace_of_ends (a : Str) (h1 : ∀ c, a.head? = some c → isWS c = false)
    (h2 : ∀ c, a.getLast? = some c → isWS c = false) : trimSpace a = a := by
  unfold trimSpace
  rw [dropWhile_eq_self_of_head _ _ h1]
  rw [dropWhile_eq_self_of_head _ _ (by simpa [List.head?_reverse] using h2)]
  exact List.reverse_reverse a

theorem trimSpace_append_newline (a : Str) (h1 : ∀ c, a.head? = some c → isWS c = false)
    (h2 : ∀ c, a.getLast? = some c → isWS c = false) (hne : a ≠ []) :
    trimSpace (a ++ ['\n']) = a := by
  unfold trimSpace
  have hh : (a ++ ['\n']).dropWhile isWS = a ++ ['\n'] := by
    apply dropWhile_eq_self_of_head
    intro c hc
    cases a with
    | nil => exact absurd rfl hne
    | cons x t =>
      rw [List.cons_append] at hc
      simp only [List.head?_cons, Option.some.injEq] at hc
      exact hc ▸ h1 x rfl
  rw [hh, List.reverse_append]
  simp only [List.reverse_cons, List.reverse_nil, List.nil_append, List.singleton_append]
  rw [List.dropWhile_cons]
  have : isWS '\n' = true := by decide
  rw [this]
  simp only [if_true]
  rw [dropWhile_eq_self_of_head _ _ (by simpa [List.head?_reverse] using h2)]
  exact List.reverse_reverse a

/-! ## Digit and integer codec lemmas -/

theorem char_ne_of_toNat (c d : Char) (h : c.toNat ≠ d.toNat) : c ≠ d :=
  fun he => h (he ▸ rfl)

theorem digit_toNat (c : Char) (h : (digitVal? c).isSome) :
    48 ≤ c.toNat ∧ c.toNat ≤ 57 := by
  unfold digitVal? at h
  split at h
  · next hb => exact hb
  · simp at h

theorem digit_not_ws (c : Char) (h : (digitVal? c).isSome) : isWS c = false := by
  obtain ⟨h1, h2⟩ := digit_toNat c h
  unfold isWS
  have hne : ∀ d : Char, d.toNat < 48 ∨ 57 < d.toNat → (c = d) = False := by
    intro d hd
    simp only [eq_iff_iff, iff_false]
    exact char_ne_of_toNat c d (by omega)
  simp [hne ' ' (by decide), hne '\t' (by decide), hne '\n' (by decide),
    hne '\x0b' (by decide), hne '\x0c' (by decide), hne '\r' (by decide)]

theorem digit_ne_of_lt (c d : Char) (h : (digitVal? c).isSome)
    (hd : d.toNat < 48 ∨ 57 < d.toNat) : c ≠ d := by
  obtain ⟨h1, h2⟩ := digit_toNat c h
  exact char_ne_of_toNat c d (by omega)

theorem digitChar_val (d : Nat) (h : d < 10) :
    digitVal? (Char.ofNat (48 + d)) = some d := by
  interval_cases d <;> decide

theorem natDigitsRev_lt (n : Nat) : ∀ d ∈ natDigitsRev n, d < 10 := by
  induction n using Nat.strong_induction_on with
  | _ n ih =>
    rw [natDigitsRev_eq]
    split
    · simp
    · next hn =>
      intro d hd
      rcases List.mem_cons.mp hd with h | h
      · subst h; exact Nat.mod_lt _ (by omega)
      · exact ih (n / 10) (Nat.div_lt_self (Nat.pos_of_ne_zero hn) (by omega)) d h

theorem digitsVal_append_single (L : List Nat) (d : Nat) :
    digitsVal (L ++ [d]) = digitsVal L * 10 + d := by
  unfold digitsVal
  rw [List.foldl_append]
  rfl

theorem digitsVal_reverse_natDigitsRev (n : Nat) :
    digitsVal (natDigitsRev n).reverse = n := by
  induction n using Nat.strong_induction_on with
  | _ n ih =>
    rw [natDigitsRev_eq]
    split
    · next hn => simp [hn, digitsVal]
    · next hn =>
      rw [List.reverse_cons, digitsVal_append_single,
        ih (n / 10) (Nat.div_lt_self (Nat.pos_of_ne_zero hn) (by omega))]
      omega

theorem natToStr_digits (n : Nat) : ∀ c ∈ natToStr n, (digitVal? c).isSome := by
  unfold natToStr
  split
  · intro c hc
    simp only [List.mem_singleton] at hc
    subst hc; decide
  · intro c hc
    simp only [List.mem_reverse, List.mem_map] at hc
    obtain ⟨d, hd, rfl⟩ := hc
    simp [digitChar_val d (natDigitsRev_lt n d hd)]

theorem natToStr_ne_nil (n : Nat) : natToStr n ≠ [] := by
  unfold natToStr
  split
  · simp
  · next hn =>
    rw [natDigitsRev_eq]
    simp [hn]

theorem parseDigits?_natToStr (n : Nat) : parseDigits? (natToStr n) = some n := by
  unfold parseDigits?
  rw [if_neg (natToStr_ne_nil n)]
  rw [if_pos (List.all_eq_true.mpr (fun c hc => natToStr_digits n c hc))]
  congr 1
  unfold natToStr
  split
  · next hn => subst hn; decide
  · rw [List.map_reverse, List.map_map]
    have hmap : (natDigitsRev n).map ((fun c => (digitVal? c).getD 0) ∘ fun d => Char.ofNat (48 + d))
        = (natDigitsRev n).map id := by
      apply List.map_congr_left
      intro d hd
      simp [digitChar_val d (natDigitsRev_lt n d hd)]
    rw [hmap, List.map_id]
    exact digitsVal_reverse_natDigitsRev n

theorem natToStr_head_digit (n : Nat) :
    ∃ c t, natToStr n = c :: t ∧ (digitVal? c).isSome := by
  cases h : natToStr n with
  | nil => exact absurd h (natToStr_ne_nil n)
  | cons c t =>
    exact ⟨c, t, rfl, natToStr_digits n c (h ▸ List.mem_cons_self c t)⟩

theorem atoi?_natToStr (n : Nat) : atoi? (natToStr n) = some (n : Int) := by
  obtain ⟨c, t, hct, hc⟩ := natToStr_head_digit n
  rw [hct]
  unfold atoi?
  split
  · next heq =>
    rw [List.cons.injEq] at heq
    exact absurd heq.1 (digit_ne_of_lt c '-' hc (by decide))
  · next heq =>
    rw [List.cons.injEq] at heq
    exact absurd heq.1 (digit_ne_of_lt c '+' hc (by decide))
  · rw [← hct]
    simp [parseDigits?_natToStr]

theorem atoi?_intToStr (k : Int) : atoi? (intToStr k) = some k := by
  unfold intToStr
  split
  · next hneg =>
    have : atoi? ('-' :: natToStr k.natAbs)
        = (parseDigits? (natToStr k.natAbs)).map (fun n => -(n : Int)) := rfl
    rw [this, parseDigits?_natToStr]
    show some (-(k.natAbs : Int)) = some k
    congr 1
    omega
  · next hpos =>
    rw [atoi?_natToStr]
    congr 1
    omega

theorem intToStr_chars (k : Int) : ∀ c ∈ intToStr k, (digitVal? c).isSome ∨ c = '-' := by
  unfold intToStr
  split
  · intro c hc
    rcases List.mem_cons.mp hc with h | h
    · exact Or.inr h
    · exact Or.inl (natToStr_digits _ c h)
  · intro c hc
    exact Or.inl (natToStr_digits _ c hc)

theorem natToStr_not_ws (n : Nat) : ∀ c ∈ natToStr n, isWS c = false :=
  fun c hc => digit_not_ws c (natToStr_digits n c hc)

theorem natToStr_not_sep (n : Nat) : ∀ c ∈ natToStr n, c ≠ ' ' ∧ c ≠ '\n' ∧ c ≠ '\r' := by
  intro c hc
  have h := natToStr_digits n c hc
  exact ⟨digit_ne_of_lt c ' ' h (by decide), digit_ne_of_lt c '\n' h (by decide),
    digit_ne_of_lt c '\r' h (by decide)⟩

/-! ## Float codec lemmas -/

theorem takeWhile_all_of (p : Char → Bool) (t : Str) (ht : ∀ c ∈ t, p c = true) :
    t.takeWhile p = t ∧ t.dropWhile p = [] := by
  induction t with
  | nil => simp
  | cons c t ih =>
    have hc := ht c (List.mem_cons_self c t)
    obtain ⟨h1, h2⟩ := ih (fun c hm => ht c (List.mem_cons_of_mem _ hm))
    simp [List.takeWhile_cons, List.dropWhile_cons, hc, h1, h2]

theorem takeWhile_upto_sep (p : Char → Bool) (sep : Char) (t b : Str)
    (ht : ∀ c ∈ t, p c = true) (hsep : p sep = false) :
    (t ++ sep :: b).takeWhile p = t ∧ (t ++ sep :: b).dropWhile p = sep :: b := by
  induction t with
  | nil => simp [List.takeWhile_cons, List.dropWhile_cons, hsep]
  | cons c t ih =>
    have hc := ht c (List.mem_cons_self c t)
    obtain ⟨h1, h2⟩ := ih (fun c hm => ht c (List.mem_cons_of_mem _ hm))
    simp [List.takeWhile_cons, List.dropWhile_cons, hc, h1, h2]

theorem foldl_digits_init (a : Nat) (L : List Nat) :
    L.foldl (fun x d => x * 10 + d) a = a * 10 ^ L.length + digitsVal L := by
  induction L generalizing a with
  | nil => simp [digitsVal]
  | cons d t ih =>
    simp only [List.foldl_cons, List.length_cons]
    rw [ih (a * 10 + d)]
    have hd : digitsVal (d :: t) = d * 10 ^ t.length + digitsVal t := by
      show t.foldl (fun x d => x * 10 + d) (0 * 10 + d) = _
      rw [show 0 * 10 + d = d by omega, ih d]
    rw [hd, pow_succ]
    ring

theorem digitsVal_append (A B : List Nat) :
    digitsVal (A ++ B) = digitsVal A * 10 ^ B.length + digitsVal B := by
  unfold digitsVal
  rw [List.foldl_append]
  exact foldl_digits_init _ B

theorem digitsVal_replicate_zero (z : Nat) (L : List Nat) :
    digitsVal (List.replicate z 0 ++ L) = digitsVal L := by
  rw [digitsVal_append]
  have hz : digitsVal (List.replicate z 0) = 0 := by
    induction z with
    | zero => rfl
    | succ n ih =>
      rw [List.replicate_succ]
      show (List.replicate n 0).foldl (fun x d => x * 10 + d) (0 * 10 + 0) = 0
      rw [show 0 * 10 + 0 = 0 by omega]
      exact ih
  simp [hz]

theorem digitsVal_natToStr (m : Nat) :
    digitsVal ((natToStr m).map (fun c => (digitVal? c).getD 0)) = m := by
  unfold natToStr
  split
  · next hm => subst hm; decide
  · rw [List.map_reverse, List.map_map]
    have hmap : (natDigitsRev m).map ((fun c => (digitVal? c).getD 0) ∘ fun d => Char.ofNat (48 + d))
        = (natDigitsRev m).map id := by
      apply List.map_congr_left
      intro d hd
      simp [digitChar_val d (natDigitsRev_lt m d hd)]
    rw [hmap, List.map_id]
    exact digitsVal_reverse_natDigitsRev m

theorem decValue_eq (ds fracLen : Nat) (ex : Int) :
    decValue ds fracLen ex = (ds : ℚ) / (10 : ℚ) ^ fracLen * (10 : ℚ) ^ ex := by
  unfold decValue
  split
  · next hex =>
    rw [Rat.mkRat_eq_div]
    push_cast
    rw [show (10 : ℚ) ^ ex = (10 : ℚ) ^ ex.toNat from by
      rw [← zpow_natCast, Int.toNat_of_nonneg hex]]
    field_simp
  · next hex =>
    rw [Rat.mkRat_eq_div]
    push_cast
    rw [show (10 : ℚ) ^ ex = ((10 : ℚ) ^ (-ex).toNat)⁻¹ from by
      rw [← zpow_natCast, Int.toNat_of_nonneg (by omega), ← zpow_neg, neg_neg]]
    rw [pow_add]
    field_simp

theorem parseUnsigned?_digits (A : Str) (hne : A ≠ [])
    (hd : ∀ c ∈ A, (digitVal? c).isSome) :
    parseUnsigned? A = some ((digitsVal (A.map (fun c => (digitVal? c).getD 0)) : ℚ)) := by
  unfold parseUnsigned?
  obtain ⟨h1, h2⟩ := takeWhile_all_of _ A hd
  simp only [h1, h2]
  rw [if_neg (fun hcontra => hne hcontra.1)]
  simp only [List.append_nil]
  rw [decValue_eq]
  norm_num

theorem parseUnsigned?_point (A B : Str) (hA : A ≠ [])
    (hdA : ∀ c ∈ A, (digitVal? c).isSome) (hdB : ∀ c ∈ B, (digitVal? c).isSome) :
    parseUnsigned? (A ++ '.' :: B) =
      some ((digitsVal ((A ++ B).map (fun c => (digitVal? c).getD 0)) : ℚ) /
        (10 : ℚ) ^ B.length) := by
  unfold parseUnsigned?
  obtain ⟨h1, h2⟩ := takeWhile_upto_sep _ '.' A B hdA (by decide)
  obtain ⟨h3, h4⟩ := takeWhile_all_of _ B hdB
  simp only [h1, h2, h3, h4]
  rw [if_neg (fun hcontra => hA hcontra.1)]
  rw [decValue_eq]
  simp [List.map_append]

theorem parseFloat?_pos_head (c : Char) (t : Str) (hc : (digitVal? c).isSome) :
    parseFloat? (c :: t) = parseUnsigned? (c :: t) := by
  unfold parseFloat?
  split
  · next heq =>
    rw [List.cons.injEq] at heq
    exact absurd heq.1 (digit_ne_of_lt c '-' hc (by decide))
  · next heq =>
    rw [List.cons.injEq] at heq
    exact absurd heq.1 (digit_ne_of_lt c '+' hc (by decide))
  · rfl

theorem parseFloat?_neg_cons (t : Str) :
    parseFloat? ('-' :: t) = (parseUnsigned? t).map (fun v => -v) := rfl

theorem factorOut_spec (p : Nat) (hp : 2 ≤ p) :
    ∀ n, n ≠ 0 → n = p ^ (factorOut p n).1 * (factorOut p n).2 ∧
      ¬ p ∣ (factorOut p n).2 ∧ (factorOut p n).2 ≠ 0 := by
  intro n
  induction n using Nat.strong_induction_on with
  | _ n ih =>
    intro hn
    rw [factorOut_eq]
    split
    · next hcond =>
      have hmod := hcond.2.2
      have hdvd : p ∣ n := Nat.dvd_of_mod_eq_zero hmod
      have hq : n / p ≠ 0 := by
        intro h0
        have h1 := Nat.div_mul_cancel hdvd
        rw [h0, Nat.zero_mul] at h1
        exact hn h1.symm
      have hlt : n / p < n := Nat.div_lt_self (Nat.pos_of_ne_zero hn) (by omega)
      obtain ⟨ha, hb, hc⟩ := ih (n / p) hlt hq
      refine ⟨?_, hb, hc⟩
      have h2 : p * (n / p) = n := Nat.mul_div_cancel' hdvd
      have h3 : p ^ ((factorOut p (n / p)).1 + 1) * (factorOut p (n / p)).2
          = p * (n / p) := by
        conv_rhs => rw [ha]
        ring
      show n = p ^ ((factorOut p (n / p)).1 + 1) * (factorOut p (n / p)).2
      rw [h3]
      exact h2.symm
    · next hcond =>
      push_neg at hcond
      have hmod := hcond hp hn
      exact ⟨by simp, fun hd => hmod (Nat.mod_eq_zero_of_dvd hd), hn⟩

theorem isDecimalRat_den_pow (q : ℚ) (h : isDecimalRat q = true) :
    ∃ a b, q.den = 2 ^ a * 5 ^ b ∧ decExp q.den = max a b := by
  have hden : q.den ≠ 0 := q.den_nz
  obtain ⟨h2a, h2b, h2c⟩ := factorOut_spec 2 (by omega) q.den hden
  obtain ⟨h5a, h5b, h5c⟩ := factorOut_spec 5 (by omega) _ h2c
  unfold isDecimalRat at h
  rw [decide_eq_true_iff] at h
  rw [h] at h5a
  refine ⟨(factorOut 2 q.den).1, (factorOut 5 (factorOut 2 q.den).2).1, ?_, rfl⟩
  conv_lhs => rw [h2a, h5a]
  ring

theorem isDecimalRat_den_dvd (q : ℚ) (h : isDecimalRat q = true) :
    (q.den : Nat) ∣ 10 ^ decExp q.den := by
  obtain ⟨a, b, hab, hmax⟩ := isDecimalRat_den_pow q h
  rw [hmax, hab]
  have h10 : (10 : Nat) ^ max a b = 2 ^ max a b * 5 ^ max a b := by
    rw [← Nat.mul_pow]
  rw [h10]
  exact Nat.mul_dvd_mul (pow_dvd_pow 2 (le_max_left _ _)) (pow_dvd_pow 5 (le_max_right _ _))

theorem fmtFloat_mant_eq (q : ℚ) (h : isDecimalRat q = true) :
    ((q.num * (((10 : Nat) ^ decExp q.den / q.den : Nat) : Int) : Int) : ℚ)
      = q * (10 : ℚ) ^ decExp q.den := by
  have hdvd := isDecimalRat_den_dvd q h
  have hden0 : ((q.den : Nat) : ℚ) ≠ 0 := by
    exact_mod_cast q.den_nz
  have hmul : ((10 : Nat) ^ decExp q.den / q.den) * q.den = 10 ^ decExp q.den :=
    Nat.div_mul_cancel hdvd
  have hq : (((10 : Nat) ^ decExp q.den / q.den : Nat) : ℚ) * ((q.den : Nat) : ℚ)
      = (10 : ℚ) ^ decExp q.den := by
    exact_mod_cast congrArg (fun n : Nat => (n : ℚ)) hmul
  have hqden : q * ((q.den : Nat) : ℚ) = (q.num : ℚ) := by
    nth_rewrite 1 [← Rat.num_div_den q]
    field_simp
  calc ((q.num * (((10 : Nat) ^ decExp q.den / q.den : Nat) : Int) : Int) : ℚ)
      = (q.num : ℚ) * (((10 : Nat) ^ decExp q.den / q.den : Nat) : ℚ) := by
        rw [Int.cast_mul, Int.cast_natCast]
    _ = (q * ((q.den : Nat) : ℚ)) * (((10 : Nat) ^ decExp q.den / q.den : Nat) : ℚ) := by
        rw [hqden]
    _ = q * ((((10 : Nat) ^ decExp q.den / q.den : Nat) : ℚ) * ((q.den : Nat) : ℚ)) := by
        ring
    _ = q * (10 : ℚ) ^ decExp q.den := by
        rw [hq]

theorem padDigits_digits (m k : Nat) : ∀ c ∈ padDigits m k, (digitVal? c).isSome := by
  unfold padDigits
  simp only []
  split
  · intro c hc
    rcases List.mem_append.mp hc with hm | hm
    · rw [List.eq_of_mem_replicate hm]; decide
    · exact natToStr_digits _ c hm
  · exact natToStr_digits _

theorem padDigits_len (m k : Nat) : k + 1 ≤ (padDigits m k).length := by
  unfold padDigits
  simp only []
  split
  · next hle =>
    simp only [List.length_append, List.length_replicate]
    omega
  · next hgt =>
    omega

theorem padDigits_val (m k : Nat) :
    digitsVal ((padDigits m k).map (fun c => (digitVal? c).getD 0)) = m := by
  unfold padDigits
  simp only []
  split
  · rw [List.map_append, List.map_replicate]
    rw [show ((digitVal? '0').getD 0) = 0 from by decide]
    rw [digitsVal_replicate_zero]
    exact digitsVal_natToStr m
  · exact digitsVal_natToStr m

theorem parseUnsigned?_decBody (m k : Nat) :
    parseUnsigned? (decBody m k) = some ((m : ℚ) / (10 : ℚ) ^ k) := by
  have hdig := padDigits_digits m k
  have hlen := padDigits_len m k
  unfold decBody
  simp only []
  split
  · next hk0 =>
    subst hk0
    rw [parseUnsigned?_digits (padDigits m 0)
      (by intro h0; rw [h0] at hlen; simp at hlen) hdig]
    rw [padDigits_val]
    norm_num
  · next hk0 =>
    have hlentake : ((padDigits m k).take ((padDigits m k).length - k)).length
        = (padDigits m k).length - k := by
      simp only [List.length_take]
      omega
    have htake_ne : (padDigits m k).take ((padDigits m k).length - k) ≠ [] := by
      intro h0
      rw [h0] at hlentake
      simp only [List.length_nil] at hlentake
      omega
    have hdrop_len : ((padDigits m k).drop ((padDigits m k).length - k)).length = k := by
      simp only [List.length_drop]
      omega
    rw [parseUnsigned?_point _ _ htake_ne
      (fun c hc => hdig c (List.mem_of_mem_take hc))
      (fun c hc => hdig c (List.mem_of_mem_drop hc))]
    rw [hdrop_len, List.take_append_drop, padDigits_val]

theorem decBody_head_digit (m k : Nat) :
    ∃ c t, decBody m k = c :: t ∧ (digitVal? c).isSome := by
  have hdig := padDigits_digits m k
  have hlen := padDigits_len m k
  obtain ⟨c, t, hct⟩ : ∃ c t, padDigits m k = c :: t := by
    cases hp : padDigits m k with
    | nil => rw [hp] at hlen; simp at hlen
    | cons c t => exact ⟨c, t, rfl⟩
  have hc : (digitVal? c).isSome := hdig c (hct ▸ List.mem_cons_self _ _)
  unfold decBody
  simp only []
  split
  · exact ⟨c, t, hct, hc⟩
  · next hk0 =>
    obtain ⟨n, hn⟩ : ∃ n, (padDigits m k).length - k = n + 1 :=
      ⟨(padDigits m k).length - k - 1, by omega⟩
    rw [hn, hct, List.take_succ_cons, List.cons_append]
    exact ⟨c, _, rfl, hc⟩

theorem parseFloat?_renderDec (mant : Int) (k : Nat) :
    parseFloat? (renderDec mant k) = some ((mant : ℚ) / (10 : ℚ) ^ k) := by
  obtain ⟨c, t, hct, hc⟩ := decBody_head_digit mant.natAbs k
  unfold renderDec
  split
  · next hneg =>
    rw [parseFloat?_neg_cons, parseUnsigned?_decBody]
    simp only [Option.map_some']
    congr 1
    have habs : ((mant.natAbs : Nat) : ℚ) = -((mant : Int) : ℚ) := by
      have h1 : ((mant.natAbs : Nat) : ℚ) = |((mant : Int) : ℚ)| := by
        rw [Int.cast_natAbs]
        push_cast
        rfl
      rw [h1, abs_of_neg (by exact_mod_cast hneg)]
    rw [habs]
    ring
  · next hneg =>
    rw [hct, parseFloat?_pos_head c t hc, ← hct, parseUnsigned?_decBody]
    congr 1
    have habs : ((mant.natAbs : Nat) : ℚ) = ((mant : Int) : ℚ) := by
      have h1 : ((mant.natAbs : Nat) : ℚ) = |((mant : Int) : ℚ)| := by
        rw [Int.cast_natAbs]
        push_cast
        rfl
      rw [h1, abs_of_nonneg (by exact_mod_cast (by omega : (0:Int) ≤ mant))]
    rw [habs]

theorem parseFloat?_fmtFloat (q : ℚ) (h : isDecimalRat q = true) :
    parseFloat? (fmtFloat q) = some q := by
  rw [fmtFloat, parseFloat?_renderDec, fmtFloat_mant_eq q h]
  congr 1
  rw [mul_div_assoc, div_self (pow_ne_zero _ (by norm_num)), mul_one]

theorem fmtFloat_chars (q : ℚ) :
    ∀ c ∈ fmtFloat q, (digitVal? c).isSome ∨ c = '-' ∨ c = '.' := by
  have hbody : ∀ m k : Nat, ∀ c ∈ decBody m k, (digitVal? c).isSome ∨ c = '.' := by
    intro m k c hc
    unfold decBody at hc
    simp only [] at hc
    split at hc
    · exact Or.inl (padDigits_digits m k c hc)
    · rcases List.mem_append.mp hc with hm | hm
      · exact Or.inl (padDigits_digits m k c (List.mem_of_mem_take hm))
      · rcases List.mem_cons.mp hm with hm | hm
        · exact Or.inr hm
        · exact Or.inl (padDigits_digits m k c (List.mem_of_mem_drop hm))
  intro c hc
  unfold fmtFloat renderDec at hc
  split at hc
  · rcases List.mem_cons.mp hc with hm | hm
    · exact Or.inr (Or.inl hm)
    · rcases hbody _ _ c hm with h1 | h1
      · exact Or.inl h1
      · exact Or.inr (Or.inr h1)
  · rcases hbody _ _ c hc with h1 | h1
    · exact Or.inl h1
    · exact Or.inr (Or.inr h1)

theorem fmtFloat_ne_nil (q : ℚ) : fmtFloat q ≠ [] := by
  unfold fmtFloat renderDec
  obtain ⟨c, t, hct, -⟩ := decBody_head_digit
    (q.num * (((10 : Nat) ^ decExp q.den / q.den : Nat) : Int)).natAbs (decExp q.den)
  split
  · simp
  · rw [hct]
    simp

theorem fmtFloat_not_ws (q : ℚ) : ∀ c ∈ fmtFloat q, isWS c = false := by
  intro c hc
  rcases fmtFloat_chars q c hc with h | h | h
  · exact digit_not_ws c h
  · subst h; decide
  · subst h; decide

theorem fmtFloat_not_nl (q : ℚ) : ∀ c ∈ fmtFloat q, c ≠ '\n' ∧ c ≠ '\r' := by
  intro c hc
  rcases fmtFloat_chars q c hc with h | h | h
  · exact ⟨digit_ne_of_lt c '\n' h (by decide), digit_ne_of_lt c '\r' h (by decide)⟩
  · subst h; exact ⟨by decide, by decide⟩
  · subst h; exact ⟨by decide, by decide⟩

/-! ## Coordinate body lemmas -/

theorem cooSet_ok (c : COO) (i j : Int) (v : ℚ)
    (h : 0 ≤ i ∧ i < c.n ∧ 0 ≤ j ∧ j < c.m) :
    cooSet c i j v = .ok { c with inserts := c.inserts ++ [(i, j, v)] } := by
  unfold cooSet
  rw [if_pos h]

/-- Pairwise distinctness of the unordered coordinate pairs of two
one-based entries: neither equal coordinates nor transposed ones. -/
def unorderedCoordNe (a b : Int × Int × ℚ) : Prop :=
  (a.1, a.2.1) ≠ (b.1, b.2.1) ∧ (a.1, a.2.1) ≠ (b.2.1, b.1)

instance (a b : Int × Int × ℚ) : Decidable (unorderedCoordNe a b) := by
  unfold unorderedCoordNe
  infer_instance

theorem cooLoop_ok (sym : Str) (n m : Int) :
    ∀ (ls : List Str) (ts : List (Int × Int × ℚ)),
    List.Forall₂ (fun l t => splitTriplet l = .ok t) ls ts →
    (∀ t ∈ ts, t.2.2 ≠ 0) →
    (∀ t ∈ ts, 1 ≤ t.1 ∧ t.1 ≤ n ∧ 1 ≤ t.2.1 ∧ t.2.1 ≤ m ∧
      (t.1 ≠ t.2.1 → sym = Symmetric ∨ sym = SkewSymmetric →
        1 ≤ t.2.1 ∧ t.2.1 ≤ n ∧ 1 ≤ t.1 ∧ t.1 ≤ m)) →
    ∀ coo : COO, coo.n = n → coo.m = m →
      cooLoop sym coo ls =
        .ok ⟨n, m, coo.inserts ++ ts.flatMap (specMirrorExpansion sym)⟩ := by
  intro ls ts hparse
  induction hparse with
  | nil =>
    intro _ _ coo h1 h2
    cases coo
    simp_all [cooLoop]
  | @cons l t ls' ts' hlt hrest ih =>
    intro hnz hbounds coo h1 h2
    obtain ⟨i, j, v⟩ := t
    have hv : v ≠ 0 := hnz (i, j, v) (List.mem_cons_self _ _)
    obtain ⟨hi1, hi2, hj1, hj2, hmirror⟩ := hbounds (i, j, v) (List.mem_cons_self _ _)
    have hnz' : ∀ t ∈ ts', t.2.2 ≠ 0 := fun t ht => hnz t (List.mem_cons_of_mem _ ht)
    have hbounds' : ∀ t ∈ ts', _ := fun t ht => hbounds t (List.mem_cons_of_mem _ ht)
    dsimp only at hi1 hi2 hj1 hj2 hmirror hv
    rw [cooLoop, hlt]
    dsimp only
    rw [if_neg hv]
    rw [cooSet_ok coo (i - 1) (j - 1) v (by omega)]
    dsimp only
    by_cases hij : i = j
    · subst hij
      rw [if_neg (by simp : ¬ (i ≠ i))]
      dsimp only
      rw [ih hnz' hbounds' _ (by simp [h1]) (by simp [h2])]
      simp [specMirrorExpansion, List.append_assoc]
    · have htri : sym = Symmetric ∨ sym = SkewSymmetric ∨
          (sym ≠ Symmetric ∧ sym ≠ SkewSymmetric) := by
        by_cases hs : sym = Symmetric
        · exact Or.inl hs
        · by_cases hk : sym = SkewSymmetric
          · exact Or.inr (Or.inl hk)
          · exact Or.inr (Or.inr ⟨hs, hk⟩)
      rcases htri with hs | hs | hs
      · obtain ⟨hm1, hm2, hm3, hm4⟩ := hmirror hij (Or.inl hs)
        rw [if_pos hij, if_pos hs]
        rw [cooSet_ok _ (j - 1) (i - 1) v (by dsimp only; omega)]
        dsimp only
        rw [ih hnz' hbounds' _ (by simp [h1]) (by simp [h2])]
        simp [specMirrorExpansion, hij, hs, List.append_assoc]
      · obtain ⟨hm1, hm2, hm3, hm4⟩ := hmirror hij (Or.inr hs)
        have hss : sym ≠ Symmetric := by
          rw [hs]; decide
        rw [if_pos hij, if_neg hss, if_pos hs]
        rw [cooSet_ok _ (j - 1) (i - 1) (-v) (by dsimp only; omega)]
        dsimp only
        rw [ih hnz' hbounds' _ (by simp [h1]) (by simp [h2])]
        simp [specMirrorExpansion, hij, hs, hss, List.append_assoc,
          eq_false (show SkewSymmetric ≠ Symmetric from by decide)]
      · obtain ⟨hs1, hs2⟩ := hs
        rw [if_pos hij, if_neg hs1, if_neg hs2]
        dsimp only
        rw [ih hnz' hbounds' _ (by simp [h1]) (by simp [h2])]
        simp [specMirrorExpansion, hij, hs1, hs2, List.append_assoc]

theorem dedupLast_eq_self (es : List (Int × Int × ℚ)) (h : es.Pairwise coordNe) :
    dedupLast es = es := by
  induction es with
  | nil => rfl
  | cons e t ih =>
    rw [List.pairwise_cons] at h
    unfold dedupLast
    rw [if_neg, ih h.2]
    intro hany
    rw [List.any_eq_true] at hany
    obtain ⟨f, hf, hp⟩ := hany
    rw [decide_eq_true_iff] at hp
    exact h.1 f hf (by rw [hp.1, hp.2])

theorem find?_coord (es : List (Int × Int × ℚ)) (h : es.Pairwise coordNe)
    (e : Int × Int × ℚ) (he : e ∈ es) :
    es.find? (fun f => decide (f.1 = e.1 ∧ f.2.1 = e.2.1)) = some e := by
  induction es with
  | nil => cases he
  | cons f t ih =>
    rw [List.pairwise_cons] at h
    rw [List.find?_cons]
    rcases List.mem_cons.mp he with rfl | hm
    · simp
    · have hne : decide (f.1 = e.1 ∧ f.2.1 = e.2.1) = false := by
        rw [decide_eq_false_iff_not]
        intro hp
        exact h.1 e hm (by rw [hp.1, hp.2])
      rw [hne]
      exact ih h.2 hm

theorem findVal?_mem (es : List (Int × Int × ℚ)) (h : es.Pairwise coordNe)
    (e : Int × Int × ℚ) (he : e ∈ es) : findVal? es e.1 e.2.1 = some e.2.2 := by
  unfold findVal?
  rw [find?_coord es h e he]
  rfl

theorem mem_expansion (sym : Str) (t e : Int × Int × ℚ)
    (he : e ∈ specMirrorExpansion sym t) :
    (e.1 = t.1 - 1 ∧ e.2.1 = t.2.1 - 1) ∨ (e.1 = t.2.1 - 1 ∧ e.2.1 = t.1 - 1) := by
  unfold specMirrorExpansion at he
  rcases List.mem_cons.mp he with rfl | hm
  · exact Or.inl ⟨rfl, rfl⟩
  · split at hm
    · split at hm
      · rw [List.mem_singleton] at hm
        subst hm
        exact Or.inr ⟨rfl, rfl⟩
      · split at hm
        · rw [List.mem_singleton] at hm
          subst hm
          exact Or.inr ⟨rfl, rfl⟩
        · cases hm
    · cases hm

theorem expansion_self_pairwise (sym : Str) (t : Int × Int × ℚ) :
    (specMirrorExpansion sym t).Pairwise coordNe := by
  unfold specMirrorExpansion
  split
  · next hij =>
    split
    · refine List.pairwise_cons.mpr ⟨?_, by simp⟩
      intro e he
      rw [List.mem_singleton] at he
      subst he
      unfold coordNe
      simp only [ne_eq, Prod.mk.injEq, not_and]
      intro h1
      omega
    · split
      · refine List.pairwise_cons.mpr ⟨?_, by simp⟩
        intro e he
        rw [List.mem_singleton] at he
        subst he
        unfold coordNe
        simp only [ne_eq, Prod.mk.injEq, not_and]
        intro h1
        omega
      · simp
  · simp

theorem expansion_pairwise (sym : Str) (ts : List (Int × Int × ℚ))
    (hts : ts.Pairwise unorderedCoordNe) :
    (ts.flatMap (specMirrorExpansion sym)).Pairwise coordNe := by
  induction ts with
  | nil => simp
  | cons t rest ih =>
    rw [List.pairwise_cons] at hts
    rw [List.flatMap_cons, List.pairwise_append]
    refine ⟨expansion_self_pairwise sym t, ih hts.2, ?_⟩
    intro x hx y hy
    obtain ⟨u, hu, hyu⟩ := List.mem_flatMap.mp hy
    have hne := hts.1 u hu
    have n1 : ¬(t.1 = u.1 ∧ t.2.1 = u.2.1) := by
      intro hp
      exact hne.1 (by rw [hp.1, hp.2])
    have n2 : ¬(t.1 = u.2.1 ∧ t.2.1 = u.1) := by
      intro hp
      exact hne.2 (by rw [hp.1, hp.2])
    unfold coordNe
    intro heq
    rw [Prod.mk.injEq] at heq
    rcases mem_expansion sym t x hx with ⟨hx1, hx2⟩ | ⟨hx1, hx2⟩ <;>
      rcases mem_expansion sym u y hyu with ⟨hy1, hy2⟩ | ⟨hy1, hy2⟩ <;>
      omega

/-! ## Array body lemmas -/

theorem writeSeq_length (vs : List ℚ) :
    ∀ (values : List ℚ) (cnt : Nat), (writeSeq values cnt vs).length = values.length := by
  induction vs with
  | nil => intro values cnt; rfl
  | cons v vs ih =>
    intro values cnt
    rw [writeSeq, ih, List.length_set]

theorem writeSeq_getElem? (vs : List ℚ) :
    ∀ (values : List ℚ) (cnt : Nat), cnt + vs.length ≤ values.length → ∀ k : Nat,
      (writeSeq values cnt vs)[k]? =
        if cnt ≤ k ∧ k < cnt + vs.length then vs[k - cnt]? else values[k]? := by
  induction vs with
  | nil =>
    intro values cnt _ k
    rw [writeSeq, if_neg (by simp only [List.length_nil]; omega)]
  | cons v vs ih =>
    intro values cnt hlen k
    simp only [List.length_cons] at hlen
    rw [writeSeq]
    rw [ih (values.set cnt v) (cnt + 1) (by rw [List.length_set]; omega) k]
    rw [List.getElem?_set]
    by_cases h1 : cnt + 1 ≤ k ∧ k < cnt + 1 + vs.length
    · rw [if_pos h1, if_pos (by simp only [List.length_cons]; omega)]
      have hk : k - cnt = (k - (cnt + 1)) + 1 := by omega
      rw [hk, List.getElem?_cons_succ]
    · rw [if_neg h1]
      by_cases h2 : cnt = k
      · subst h2
        rw [if_pos rfl, if_pos (by omega), if_pos (by simp only [List.length_cons]; omega)]
        rw [Nat.sub_self, List.getElem?_cons_zero]
      · rw [if_neg h2, if_neg (by simp only [List.length_cons]; omega)]

theorem arrayLoop_ok (ls : List Str) (vs : List ℚ)
    (hparse : List.Forall₂ (fun l v => parseFloat? (trimSpace l) = some v) ls vs) :
    ∀ (values : List ℚ) (cnt : Nat), cnt + ls.length ≤ values.length →
      arrayLoop ls values cnt = .ok (writeSeq values cnt vs) := by
  induction hparse with
  | nil => intro values cnt _; rfl
  | @cons l v ls' vs' hlv hrest ih =>
    intro values cnt hlen
    simp only [List.length_cons] at hlen
    rw [arrayLoop, hlv]
    dsimp only
    rw [if_pos (by omega)]
    rw [writeSeq]
    exact ih _ _ (by rw [List.length_set]; omega)

/-! ## Parsing stage lemmas -/

theorem mem_getLast? : ∀ (a : Str) (c : Char), a.getLast? = some c → c ∈ a
  | [], _, h => by cases h
  | [x], c, h => by
    simp only [List.getLast?_singleton, Option.some.injEq] at h
    subst h
    simp
  | x :: y :: t, c, h => by
    rw [List.getLast?_cons_cons] at h
    exact List.mem_cons_of_mem _ (mem_getLast? (y :: t) c h)

theorem mem_head? {a : Str} {c : Char} (h : a.head? = some c) : c ∈ a := by
  cases a with
  | nil => cases h
  | cons x t =>
    rw [List.head?_cons, Option.some.injEq] at h
    subst h
    simp

theorem getLast?_append_right {a b : Str} (hb : b ≠ []) :
    (a ++ b).getLast? = b.getLast? := by
  rw [List.getLast?_append]
  cases hbl : b.getLast? with
  | none =>
    exact absurd (List.getLast?_eq_none.mp hbl) hb
  | some c => rfl

theorem head?_append_left {a b : Str} (ha : a ≠ []) : (a ++ b).head? = a.head? := by
  cases a with
  | nil => exact absurd rfl ha
  | cons c t => rfl

theorem intToStr_ne_nil (k : Int) : intToStr k ≠ [] := by
  unfold intToStr
  split
  · simp
  · exact natToStr_ne_nil _

theorem intToStr_no_space (k : Int) : ∀ c ∈ intToStr k, c ≠ ' ' ∧ c ≠ '\n' ∧ c ≠ '\r' := by
  intro c hc
  rcases intToStr_chars k c hc with h | h
  · exact ⟨digit_ne_of_lt c ' ' h (by decide), digit_ne_of_lt c '\n' h (by decide),
      digit_ne_of_lt c '\r' h (by decide)⟩
  · subst h
    exact ⟨by decide, by decide, by decide⟩

theorem intToStr_not_ws (k : Int) : ∀ c ∈ intToStr k, isWS c = false := by
  intro c hc
  rcases intToStr_chars k c hc with h | h
  · exact digit_not_ws c h
  · subst h
    decide

theorem fmtFloat_no_space (q : ℚ) : ∀ c ∈ fmtFloat q, c ≠ ' ' ∧ c ≠ '\n' ∧ c ≠ '\r' := by
  intro c hc
  have hws := fmtFloat_not_ws q c hc
  refine ⟨?_, ?_, ?_⟩ <;>
    · intro he
      subst he
      revert hws
      decide

/-- Shape facts for a three-token line joined by single spaces:
no newline occurs, trimming is the identity, and both split functions
recover the tokens. -/
theorem threeTokenLine (A B C : Str) (hA : A ≠ []) (hB : B ≠ []) (hC : C ≠ [])
    (hAc : ∀ c ∈ A, c ≠ ' ' ∧ c ≠ '\n' ∧ c ≠ '\r') (hAw : ∀ c ∈ A, isWS c = false)
    (hBc : ∀ c ∈ B, c ≠ ' ' ∧ c ≠ '\n' ∧ c ≠ '\r') (hBw : ∀ c ∈ B, isWS c = false)
    (hCc : ∀ c ∈ C, c ≠ ' ' ∧ c ≠ '\n' ∧ c ≠ '\r') (hCw : ∀ c ∈ C, isWS c = false) :
    '\n' ∉ (A ++ ' ' :: (B ++ ' ' :: C)) ∧
      (A ++ ' ' :: (B ++ ' ' :: C)).getLast? ≠ some '\r' ∧
      trimSpace (A ++ ' ' :: (B ++ ' ' :: C)) = A ++ ' ' :: (B ++ ' ' :: C) ∧
      trimSpace ((A ++ ' ' :: (B ++ ' ' :: C)) ++ ['\n']) = A ++ ' ' :: (B ++ ' ' :: C) ∧
      splitOn ' ' (A ++ ' ' :: (B ++ ' ' :: C)) = [A, B, C] ∧
      fields (A ++ ' ' :: (B ++ ' ' :: C)) = [A, B, C] := by
  have hnl : '\n' ∉ (A ++ ' ' :: (B ++ ' ' :: C)) := by
    intro hm
    rcases List.mem_append.mp hm with h | h
    · exact (hAc _ h).2.1 rfl
    · rcases List.mem_cons.mp h with h | h
      · exact absurd h.symm (by decide)
      · rcases List.mem_append.mp h with h | h
        · exact (hBc _ h).2.1 rfl
        · rcases List.mem_cons.mp h with h | h
          · exact absurd h.symm (by decide)
          · exact (hCc _ h).2.1 rfl
  have hre : (' ' :: (B ++ ' ' :: C) : Str) = ([' '] ++ B ++ [' ']) ++ C := by simp
  have hlast : (A ++ ' ' :: (B ++ ' ' :: C)).getLast? = C.getLast? := by
    rw [getLast?_append_right (by simp : (' ' :: (B ++ ' ' :: C) : Str) ≠ [])]
    rw [hre, getLast?_append_right hC]
  have hcr : (A ++ ' ' :: (B ++ ' ' :: C)).getLast? ≠ some '\r' := by
    rw [hlast]
    intro hsome
    exact (hCc _ (mem_getLast? C _ hsome)).2.2 rfl
  have hh : ∀ c, (A ++ ' ' :: (B ++ ' ' :: C)).head? = some c → isWS c = false := by
    intro c hc
    rw [head?_append_left hA] at hc
    exact hAw c (mem_head? hc)
  have hl : ∀ c, (A ++ ' ' :: (B ++ ' ' :: C)).getLast? = some c → isWS c = false := by
    intro c hc
    rw [hlast] at hc
    exact hCw c (mem_getLast? C c hc)
  have hAs : ' ' ∉ A := fun hm => (hAc _ hm).1 rfl
  have hBs : ' ' ∉ B := fun hm => (hBc _ hm).1 rfl
  have hCs : ' ' ∉ C := fun hm => (hCc _ hm).1 rfl
  refine ⟨hnl, hcr, trimSpace_of_ends _ hh hl,
    trimSpace_append_newline _ hh hl (by simp), ?_, ?_⟩
  · rw [splitOn_append ' ' A _ hAs, splitOn_append ' ' B _ hBs, splitOn_not_mem ' ' C hCs]
  · rw [fields_append_sep A _ hA hAw, fields_append_sep B _ hB hBw,
      fields_all_token C hC hCw]

theorem ParseHeader_coord_general (mx : Matrix) (rest : Str) :
    ParseHeader mx ("%%MatrixMarket matrix coordinate real general".data ++ '\n' :: rest)
      = .ok ({ mx with Format := FormatCoordinate, Typ := TypeReal, Symmetry := General },
          rest) := by
  unfold ParseHeader
  rw [readLine_append _ _ (by decide)]
  rfl

theorem ParseComment_stop (mx : Matrix) (s : Str)
    (h : ∀ c t, s = c :: t → ¬(c = '%' ∨ c = '\n' ∨ c = ' ' ∨ c = '\t')) :
    ParseComment mx s = .ok (mx, s) := by
  unfold ParseComment
  cases s with
  | nil => rfl
  | cons c t =>
    rw [commentLoop_cons, if_neg (h c t rfl)]
    rfl

theorem ParseDimensions_coord (mx : Matrix) (hfmt : mx.Format = FormatCoordinate)
    (a b c : Int) (rest : Str) :
    ParseDimensions mx
        ((intToStr a ++ ' ' :: (intToStr b ++ ' ' :: intToStr c)) ++ '\n' :: rest)
      = .ok ({ mx with n := a, m := b, lines := c }, rest) := by
  obtain ⟨hnl, hcr, htrim1, htrim2, hsplit, hfields⟩ :=
    threeTokenLine (intToStr a) (intToStr b) (intToStr c)
      (intToStr_ne_nil a) (intToStr_ne_nil b) (intToStr_ne_nil c)
      (intToStr_no_space a) (intToStr_not_ws a)
      (intToStr_no_space b) (intToStr_not_ws b)
      (intToStr_no_space c) (intToStr_not_ws c)
  unfold ParseDimensions
  rw [readLine_append _ _ hnl]
  dsimp only
  rw [htrim2, hsplit]
  rw [show ([intToStr a, intToStr b, intToStr c].getD 0 ([] : Str)) = intToStr a from rfl]
  rw [atoi?_intToStr a]
  rw [show ([intToStr a, intToStr b, intToStr c].getD 1 ([] : Str)) = intToStr b from rfl]
  rw [atoi?_intToStr b]
  rw [show ([intToStr a, intToStr b, intToStr c].getD 2 ([] : Str)) = intToStr c from rfl]
  rw [atoi?_intToStr c]
  rw [hfmt]
  rfl

theorem splitTriplet_entryLine (i j : Int) (v : ℚ) (hv : isDecimalRat v = true) :
    splitTriplet (intToStr i ++ ' ' :: (intToStr j ++ ' ' :: fmtFloat v))
      = .ok (i, j, v) := by
  obtain ⟨hnl, hcr, htrim1, htrim2, hsplit, hfields⟩ :=
    threeTokenLine (intToStr i) (intToStr j) (fmtFloat v)
      (intToStr_ne_nil i) (intToStr_ne_nil j) (fmtFloat_ne_nil v)
      (intToStr_no_space i) (intToStr_not_ws i)
      (intToStr_no_space j) (intToStr_not_ws j)
      (fmtFloat_no_space v) (fmtFloat_not_ws v)
  unfold splitTriplet
  dsimp only
  rw [htrim1, hfields]
  rw [show ([intToStr i, intToStr j, fmtFloat v].getD 0 ([] : Str)) = intToStr i from rfl]
  rw [atoi?_intToStr i]
  rw [show ([intToStr i, intToStr j, fmtFloat v].getD 1 ([] : Str)) = intToStr j from rfl]
  rw [atoi?_intToStr j]
  rw [show ([intToStr i, intToStr j, fmtFloat v].getD 2 ([] : Str)) = fmtFloat v from rfl]
  rw [parseFloat?_fmtFloat v hv]
  rfl

theorem intToStr_head_digit_of_nonneg (k : Int) (hk : 0 ≤ k) :
    ∃ c t, intToStr k = c :: t ∧ (digitVal? c).isSome := by
  unfold intToStr
  rw [if_neg (by omega)]
  exact natToStr_head_digit _

theorem forall₂_map_self {α β γ : Type} (R : β → γ → Prop) (f : α → β) (g : α → γ)
    (l : List α) (h : ∀ a ∈ l, R (f a) (g a)) : List.Forall₂ R (l.map f) (l.map g) := by
  induction l with
  | nil => exact List.Forall₂.nil
  | cons a t ih =>
    exact List.Forall₂.cons (h a (List.mem_cons_self a t))
      (ih (fun a ha => h a (List.mem_cons_of_mem _ ha)))

theorem specMirrorExpansion_general (t : Int × Int × ℚ) :
    specMirrorExpansion General t = [(t.1 - 1, t.2.1 - 1, t.2.2)] := by
  unfold specMirrorExpansion
  split
  · rw [if_neg (by decide), if_neg (by decide)]
  · rfl

/-- Body of one written entry line, without the newline terminator. -/
def entryBody (e : Int × Int × ℚ) : Str :=
  intToStr (e.1 + 1) ++ ' ' :: (intToStr (e.2.1 + 1) ++ ' ' :: fmtFloat e.2.2)

theorem entryBody_shape (e : Int × Int × ℚ) :
    '\n' ∉ entryBody e ∧ (entryBody e).getLast? ≠ some '\r' := by
  obtain ⟨hnl, hcr, -, -, -, -⟩ :=
    threeTokenLine (intToStr (e.1 + 1)) (intToStr (e.2.1 + 1)) (fmtFloat e.2.2)
      (intToStr_ne_nil _) (intToStr_ne_nil _) (fmtFloat_ne_nil _)
      (intToStr_no_space _) (intToStr_not_ws _)
      (intToStr_no_space _) (intToStr_not_ws _)
      (fmtFloat_no_space _) (fmtFloat_not_ws _)
  exact ⟨hnl, hcr⟩

theorem splitLines_entryLines (es : List (Int × Int × ℚ)) :
    splitLines (es.flatMap entryLine) = es.map entryBody := by
  induction es with
  | nil => rfl
  | cons e t ih =>
    rw [List.flatMap_cons]
    have hline : entryLine e ++ t.flatMap entryLine
        = entryBody e ++ '\n' :: t.flatMap entryLine := by
      unfold entryLine entryBody
      simp [List.append_assoc]
    obtain ⟨hnl, hcr⟩ := entryBody_shape e
    rw [hline, splitLines_cons_of _ _ hnl hcr, ih]
    rfl

theorem splitTriplet_entryBody (e : Int × Int × ℚ) (hv : isDecimalRat e.2.2 = true) :
    splitTriplet (entryBody e) = .ok (e.1 + 1, e.2.1 + 1, e.2.2) :=
  splitTriplet_entryLine (e.1 + 1) (e.2.1 + 1) e.2.2 hv

/-! ## Preservation and rejection facts of the body parsers -/

theorem ParseCoordinate_preserves (mx : Matrix) (s : Str) (mx' : Matrix) (r : Str)
    (h : ParseCoordinate mx s = .ok (mx', r)) :
    mx'.n = mx.n ∧ mx'.m = mx.m ∧ mx'.lines = mx.lines ∧ mx'.Format = mx.Format := by
  unfold ParseCoordinate at h
  split at h
  · simp at h
  · split at h
    · simp at h
    · split at h
      · simp at h
      · next coo heq =>
        rw [Except.ok.injEq, Prod.mk.injEq] at h
        rw [← h.1]
        exact ⟨rfl, rfl, rfl, rfl⟩

theorem ParseArrayFormat_preserves (mx : Matrix) (s : Str) (mx' : Matrix) (r : Str)
    (h : ParseArrayFormat mx s = .ok (mx', r)) :
    mx'.n = mx.n ∧ mx'.m = mx.m ∧ mx'.lines = mx.lines ∧ mx'.Format = mx.Format := by
  unfold ParseArrayFormat at h
  split at h
  · simp at h
  · split at h
    · simp at h
    · split at h
      · simp at h
      · next values heq =>
        rw [Except.ok.injEq, Prod.mk.injEq] at h
        rw [← h.1]
        exact ⟨rfl, rfl, rfl, rfl⟩

theorem ParseMatrix_preserves (mx : Matrix) (s : Str) (mx' : Matrix) (r : Str)
    (h : ParseMatrix mx s = .ok (mx', r)) :
    mx'.n = mx.n ∧ mx'.m = mx.m := by
  unfold ParseMatrix at h
  split at h
  · exact ⟨(ParseCoordinate_preserves mx s mx' r h).1, (ParseCoordinate_preserves mx s mx' r h).2.1⟩
  · split at h
    · exact ⟨(ParseArrayFormat_preserves mx s mx' r h).1, (ParseArrayFormat_preserves mx s mx' r h).2.1⟩
    · simp at h

theorem ParseCoordinate_empty_dims (mx : Matrix) (s : Str) (h : mx.n = 0 ∨ mx.m = 0) :
    ParseCoordinate mx s = .error (.emptyDims mx.n mx.m) := by
  unfold ParseCoordinate
  rw [if_pos h]

theorem ParseArrayFormat_empty_dims (mx : Matrix) (s : Str) (h : mx.n = 0 ∨ mx.m = 0) :
    ParseArrayFormat mx s = .error (.emptyDims mx.n mx.m) := by
  unfold ParseArrayFormat
  rw [if_pos h]

/-- Space-joined token list, the shape of a size line. -/
def joinTokens : List Str → Str
  | [] => []
  | [t] => t
  | t :: ts => t ++ ' ' :: joinTokens ts

theorem joinTokens_facts (ts : List Str) (hne : ts ≠ [])
    (h1 : ∀ t ∈ ts, t ≠ [])
    (h2 : ∀ t ∈ ts, ∀ c ∈ t, c ≠ ' ' ∧ c ≠ '\n' ∧ c ≠ '\r')
    (h3 : ∀ t ∈ ts, ∀ c ∈ t, isWS c = false) :
    '\n' ∉ joinTokens ts ∧
      joinTokens ts ≠ [] ∧
      (∀ c, (joinTokens ts).head? = some c → isWS c = false) ∧
      (∀ c, (joinTokens ts).getLast? = some c → isWS c = false) ∧
      splitOn ' ' (joinTokens ts) = ts := by
  induction ts with
  | nil => exact absurd rfl hne
  | cons t rest ih =>
    have ht1 := h1 t (List.mem_cons_self t rest)
    have ht2 := h2 t (List.mem_cons_self t rest)
    have ht3 := h3 t (List.mem_cons_self t rest)
    cases rest with
    | nil =>
      refine ⟨fun hm => (ht2 _ hm).2.1 rfl, ht1, ?_, ?_, splitOn_not_mem ' ' t
        (fun hm => (ht2 _ hm).1 rfl)⟩
      · intro c hc
        exact ht3 c (mem_head? hc)
      · intro c hc
        exact ht3 c (mem_getLast? t c hc)
    | cons u rest2 =>
      obtain ⟨ihnl, ihne, ihh, ihl, ihsplit⟩ := ih (by simp)
        (fun x hx => h1 x (List.mem_cons_of_mem _ hx))
        (fun x hx => h2 x (List.mem_cons_of_mem _ hx))
        (fun x hx => h3 x (List.mem_cons_of_mem _ hx))
      have hjt : joinTokens (t :: u :: rest2) = t ++ ' ' :: joinTokens (u :: rest2) := rfl
      refine ⟨?_, by simp [hjt, ht1], ?_, ?_, ?_⟩
      · rw [hjt]
        intro hm
        rcases List.mem_append.mp hm with h | h
        · exact (ht2 _ h).2.1 rfl
        · rcases List.mem_cons.mp h with h | h
          · exact absurd h.symm (by decide)
          · exact ihnl h
      · intro c hc
        rw [hjt, head?_append_left ht1] at hc
        exact ht3 c (mem_head? hc)
      · intro c hc
        rw [hjt] at hc
        rw [show (' ' :: joinTokens (u :: rest2) : Str)
            = [' '] ++ joinTokens (u :: rest2) from rfl] at hc
        rw [getLast?_append_right (by simp : ([' '] ++ joinTokens (u :: rest2) : Str) ≠ []),
          getLast?_append_right ihne] at hc
        exact ihl c hc
      · rw [hjt, splitOn_append ' ' t _ (fun hm => (ht2 _ hm).1 rfl), ihsplit]

theorem joinTokens_trim (ts : List Str) (hne : ts ≠ [])
    (h1 : ∀ t ∈ ts, t ≠ [])
    (h2 : ∀ t ∈ ts, ∀ c ∈ t, c ≠ ' ' ∧ c ≠ '\n' ∧ c ≠ '\r')
    (h3 : ∀ t ∈ ts, ∀ c ∈ t, isWS c = false) :
    trimSpace (joinTokens ts ++ ['\n']) = joinTokens ts := by
  obtain ⟨-, hjne, hh, hl, -⟩ := joinTokens_facts ts hne h1 h2 h3
  exact trimSpace_append_newline _ hh hl hjne

theorem pairwise_mem_cases {α : Type} {R : α → α → Prop} :
    ∀ {l : List α}, l.Pairwise R → ∀ a ∈ l, ∀ b ∈ l, a = b ∨ R a b ∨ R b a := by
  intro l
  induction l with
  | nil =>
    intro _ a ha
    cases ha
  | cons x t ih =>
    intro h a ha b hb
    rw [List.pairwise_cons] at h
    rcases List.mem_cons.mp ha with ha1 | ha1 <;> rcases List.mem_cons.mp hb with hb1 | hb1
    · exact Or.inl (ha1.trans hb1.symm)
    · subst ha1
      exact Or.inr (Or.inl (h.1 b hb1))
    · subst hb1
      exact Or.inr (Or.inr (h.1 a ha1))
    · exact ih h.2 a ha1 b hb1

theorem specMirrorExpansion_single (sym : Str) (hs1 : sym ≠ Symmetric)
    (hs2 : sym ≠ SkewSymmetric) (t : Int × Int × ℚ) :
    specMirrorExpansion sym t = [(t.1 - 1, t.2.1 - 1, t.2.2)] := by
  unfold specMirrorExpansion
  rcases Decidable.em (t.1 ≠ t.2.1) with h | h
  · rw [if_pos h, if_neg hs1, if_neg hs2]
  · rw [if_neg h]

theorem specMirrorExpansion_symmetric (t : Int × Int × ℚ) (hij : t.1 ≠ t.2.1) :
    specMirrorExpansion Symmetric t
      = [(t.1 - 1, t.2.1 - 1, t.2.2), (t.2.1 - 1, t.1 - 1, t.2.2)] := by
  unfold specMirrorExpansion
  rw [if_pos hij, if_pos rfl]

theorem specMirrorExpansion_skew (t : Int × Int × ℚ) (hij : t.1 ≠ t.2.1) :
    specMirrorExpansion SkewSymmetric t
      = [(t.1 - 1, t.2.1 - 1, t.2.2), (t.2.1 - 1, t.1 - 1, -t.2.2)] := by
  unfold specMirrorExpansion
  rw [if_pos hij, if_neg (by decide), if_pos rfl]

theorem denseFromColMajor_at (N M : Nat) (values : List ℚ) (k : Nat)
    (hk : k < N * M) (hN : 0 < N) (hM : 0 < M) :
    matAt (.dense N M (denseFromColMajor N M values)) ((k % N : Nat) : Int)
        ((k / N : Nat) : Int) = values.getD k 0 := by
  have hr : k % N < N := Nat.mod_lt k hN
  have hc : k / N < M := Nat.div_lt_of_lt_mul (by rw [Nat.mul_comm] at hk ⊢; exact hk)
  simp only [matAt]
  rw [if_pos ⟨Int.natCast_nonneg _, Int.natCast_nonneg _⟩]
  rw [Int.toNat_natCast, Int.toNat_natCast]
  unfold denseFromColMajor
  have hidx : k % N * M + k / N < N * M := by
    calc k % N * M + k / N < k % N * M + M := by omega
      _ = (k % N + 1) * M := by ring
      _ ≤ N * M := Nat.mul_le_mul_right M (by omega)
  rw [List.getD_eq_getElem?_getD, List.getElem?_map, List.getElem?_range hidx]
  simp only [Option.map_some', Option.getD_some]
  have h1 : (k % N * M + k / N) % M = k / N := by
    rw [Nat.mul_comm (k % N) M, Nat.mul_add_mod]
    exact Nat.mod_eq_of_lt hc
  have h2 : (k % N * M + k / N) / M = k % N := by
    rw [Nat.mul_comm (k % N) M, Nat.mul_add_div hM, Nat.div_eq_of_lt hc, Nat.add_zero]
  rw [h1, h2]
  congr 1
  rw [Nat.div_add_mod' k N]

/-- Success and content of ParseArrayFormat on a stream whose lines all
parse, with at most rows times cols of them. -/
theorem ParseArrayFormat_at (mx : Matrix) (s : Str) (vs : List ℚ) (N M : Nat)
    (hn : mx.n = (N : Int)) (hm : mx.m = (M : Int)) (hN : 0 < N) (hM : 0 < M)
    (hparse : List.Forall₂ (fun l v => parseFloat? (trimSpace l) = some v) (splitLines s) vs)
    (hshort : vs.length ≤ N * M) :
    ∃ mx', ParseArrayFormat mx s = .ok (mx', []) ∧ mx'.n = mx.n ∧ mx'.m = mx.m ∧
      mx'.mat = some (.dense N M (denseFromColMajor N M
        (writeSeq (List.replicate (N * M) 0) 0 vs))) ∧
      ∀ k : Nat, k < N * M →
        matAt (mx'.mat.getD (.csr 0 0 [])) ((k % N : Nat) : Int) ((k / N : Nat) : Int)
          = if k < vs.length then vs.getD k 0 else 0 := by
  have hlen : (splitLines s).length = vs.length := hparse.length_eq
  have htoNat : (mx.n * mx.m).toNat = N * M := by
    rw [hn, hm]
    rw [show ((N : Int) * (M : Int)) = ((N * M : Nat) : Int) from by push_cast; ring]
    exact Int.toNat_natCast _
  have hNtoNat : mx.n.toNat = N := by rw [hn]; exact Int.toNat_natCast N
  have hMtoNat : mx.m.toNat = M := by rw [hm]; exact Int.toNat_natCast M
  have hEq : ParseArrayFormat mx s
      = .ok ({ mx with mat := some (.dense N M (denseFromColMajor N M
          (writeSeq (List.replicate (N * M) 0) 0 vs))) }, []) := by
    unfold ParseArrayFormat
    rw [if_neg (by rw [hn, hm]; push_cast; omega)]
    rw [if_neg (by rw [hn, hm]; push_cast; omega)]
    rw [htoNat]
    rw [arrayLoop_ok (splitLines s) vs hparse (List.replicate (N * M) 0) 0
      (by rw [List.length_replicate, hlen]; omega)]
    rw [hNtoNat, hMtoNat]
  refine ⟨_, hEq, rfl, rfl, rfl, ?_⟩
  intro k hk
  dsimp only [Option.getD_some]
  rw [denseFromColMajor_at N M _ k hk hN hM]
  rw [List.getD_eq_getElem?_getD]
  rw [writeSeq_getElem? vs (List.replicate (N * M) 0) 0
    (by rw [List.length_replicate]; omega) k]
  by_cases hkv : k < vs.length
  · rw [if_pos ⟨Nat.zero_le k, by omega⟩, if_pos hkv]
    rw [Nat.sub_zero, List.getD_eq_getElem?_getD]
  · rw [if_neg (by omega), if_neg hkv]
    rw [List.getElem?_replicate]
    rw [if_pos hk]
    rfl

/-- Projection of a body-parsing result to what the caller observes:
the assembled matrix value and the remaining stream. -/
def bodyView : Except GoErr (Matrix × Str) → Except GoErr (Option MatVal × Str)
  | .error e => .error e
  | .ok (mx, r) => .ok (mx.mat, r)

theorem commentLoop_parts_bounded :
    ∀ (n : Nat) (s : Str), s.length ≤ n → (commentLoop s).1 ++ (commentLoop s).2 = s := by
  intro n
  induction n with
  | zero =>
    intro s hs
    cases s with
    | nil => rfl
    | cons c rest => simp at hs
  | succ n ih =>
    intro s hs
    cases s with
    | nil => rfl
    | cons c rest =>
      rw [commentLoop_cons]
      split
      · dsimp only
        have h1 := readLine_length (c :: rest)
        have h2 := readLine_fst_ne_nil c rest
        have h3 : (readLine (c :: rest)).1.length ≠ 0 := by
          intro hz
          exact h2 (List.length_eq_zero.mp hz)
        have hrec := ih (readLine (c :: rest)).2.1
          (by simp only [List.length_cons] at h1 hs ⊢; omega)
        rw [List.append_assoc, hrec]
        exact readLine_parts (c :: rest)
      · rfl

theorem commentLoop_parts (s : Str) : (commentLoop s).1 ++ (commentLoop s).2 = s :=
  commentLoop_parts_bounded s.length s le_rfl

theorem commentLoop_stop_bounded :
    ∀ (n : Nat) (s : Str), s.length ≤ n → ∀ (c : Char) (t : Str),
      (commentLoop s).2 = c :: t → ¬(c = '%' ∨ c = '\n' ∨ c = ' ' ∨ c = '\t') := by
  intro n
  induction n with
  | zero =>
    intro s hs c t h
    cases s with
    | nil =>
      rw [commentLoop_nil] at h
      cases h
    | cons x rest => simp at hs
  | succ n ih =>
    intro s hs c t h
    cases s with
    | nil =>
      rw [commentLoop_nil] at h
      cases h
    | cons x rest =>
      rw [commentLoop_cons] at h
      by_cases hx : x = '%' ∨ x = '\n' ∨ x = ' ' ∨ x = '\t'
      · rw [if_pos hx] at h
        dsimp only at h
        have h1 := readLine_length (x :: rest)
        have h2 := readLine_fst_ne_nil x rest
        have h3 : (readLine (x :: rest)).1.length ≠ 0 := by
          intro hz
          exact h2 (List.length_eq_zero.mp hz)
        exact ih (readLine (x :: rest)).2.1
          (by simp only [List.length_cons] at h1 hs ⊢; omega) c t h
      · rw [if_neg hx] at h
        rw [List.cons.injEq] at h
        exact h.1 ▸ hx

theorem commentLoop_stop_cond (s : Str) (c : Char) (t : Str)
    (h : (commentLoop s).2 = c :: t) :
    ¬(c = '%' ∨ c = '\n' ∨ c = ' ' ∨ c = '\t') :=
  commentLoop_stop_bounded s.length s le_rfl c t h

theorem ParseMatrix_coord (mx : Matrix) (s : Str) (h : mx.Format = FormatCoordinate) :
    ParseMatrix mx s = ParseCoordinate mx s := by
  unfold ParseMatrix
  rw [if_pos h]

theorem ParseMatrix_array (mx : Matrix) (s : Str) (h : mx.Format = FormatArray) :
    ParseMatrix mx s = ParseArrayFormat mx s := by
  unfold ParseMatrix
  rw [if_neg (by rw [h]; decide), if_pos h]

/-- Success of the coordinate body parser on a stream of well-formed,
in-bounds, nonzero entry lines. -/
theorem ParseCoordinate_ok (mx : Matrix) (s : Str) (ts : List (Int × Int × ℚ))
    (hn : 0 < mx.n) (hm : 0 < mx.m) (hl : 0 ≤ mx.lines)
    (hparse : List.Forall₂ (fun l t => splitTriplet l = .ok t) (splitLines s) ts)
    (hnz : ∀ t ∈ ts, t.2.2 ≠ 0)
    (hbounds : ∀ t ∈ ts, 1 ≤ t.1 ∧ t.1 ≤ mx.n ∧ 1 ≤ t.2.1 ∧ t.2.1 ≤ mx.m ∧
      (t.1 ≠ t.2.1 → mx.Symmetry = Symmetric ∨ mx.Symmetry = SkewSymmetric →
        1 ≤ t.2.1 ∧ t.2.1 ≤ mx.n ∧ 1 ≤ t.1 ∧ t.1 ≤ mx.m)) :
    ParseCoordinate mx s = .ok ({ mx with mat := some (.csr mx.n mx.m
      (dedupLast (ts.flatMap (specMirrorExpansion mx.Symmetry)))) }, []) := by
  unfold ParseCoordinate
  rw [if_neg (by omega)]
  rw [if_neg (by omega)]
  rw [cooLoop_ok mx.Symmetry mx.n mx.m (splitLines s) ts hparse hnz hbounds
    ⟨mx.n, mx.m, []⟩ rfl rfl]
  dsimp only [csrOfCOO]
  rw [List.nil_append]

theorem flatMap_general_entries (es : List (Int × Int × ℚ)) :
    (es.map (fun e => (e.1 + 1, e.2.1 + 1, e.2.2))).flatMap (specMirrorExpansion General)
      = es := by
  induction es with
  | nil => rfl
  | cons e t ih =>
    rw [List.map_cons, List.flatMap_cons,
      specMirrorExpansion_general (e.1 + 1, e.2.1 + 1, e.2.2)]
    dsimp only
    rw [add_sub_cancel_right, add_sub_cancel_right, ih]
    rfl

/-! ## Size-line lemmas for the token-count cases -/

theorem ParseDimensions_coord_extra (mx : Matrix) (hfmt : mx.Format = FormatCoordinate)
    (a b c : Int) (x : Str) (hx1 : x ≠ [])
    (hx2 : ∀ ch ∈ x, ch ≠ ' ' ∧ ch ≠ '\n' ∧ ch ≠ '\r')
    (hx3 : ∀ ch ∈ x, isWS ch = false) (rest : Str) :
    ParseDimensions mx (joinTokens [intToStr a, intToStr b, intToStr c, x] ++ '\n' :: rest)
      = .ok ({ mx with n := a, m := b, lines := c }, rest) := by
  have h1 : ∀ t ∈ ([intToStr a, intToStr b, intToStr c, x] : List Str), t ≠ [] := by
    intro t ht
    simp only [List.mem_cons, List.not_mem_nil, or_false] at ht
    rcases ht with rfl | rfl | rfl | rfl
    · exact intToStr_ne_nil a
    · exact intToStr_ne_nil b
    · exact intToStr_ne_nil c
    · exact hx1
  have h2 : ∀ t ∈ ([intToStr a, intToStr b, intToStr c, x] : List Str),
      ∀ ch ∈ t, ch ≠ ' ' ∧ ch ≠ '\n' ∧ ch ≠ '\r' := by
    intro t ht
    simp only [List.mem_cons, List.not_mem_nil, or_false] at ht
    rcases ht with rfl | rfl | rfl | rfl
    · exact intToStr_no_space a
    · exact intToStr_no_space b
    · exact intToStr_no_space c
    · exact hx2
  have h3 : ∀ t ∈ ([intToStr a, intToStr b, intToStr c, x] : List Str),
      ∀ ch ∈ t, isWS ch = false := by
    intro t ht
    simp only [List.mem_cons, List.not_mem_nil, or_false] at ht
    rcases ht with rfl | rfl | rfl | rfl
    · exact intToStr_not_ws a
    · exact intToStr_not_ws b
    · exact intToStr_not_ws c
    · exact hx3
  obtain ⟨hnl, -, -, -, hsplit⟩ := joinTokens_facts _ (by simp) h1 h2 h3
  have htrim := joinTokens_trim _ (by simp) h1 h2 h3
  unfold ParseDimensions
  rw [readLine_append _ _ hnl]
  dsimp only
  rw [htrim, hsplit]
  rw [show ([intToStr a, intToStr b, intToStr c, x].getD 0 ([] : Str)) = intToStr a from rfl]
  rw [atoi?_intToStr a]
  rw [show ([intToStr a, intToStr b, intToStr c, x].getD 1 ([] : Str)) = intToStr b from rfl]
  rw [atoi?_intToStr b]
  rw [show ([intToStr a, intToStr b, intToStr c, x].getD 2 ([] : Str)) = intToStr c from rfl]
  rw [atoi?_intToStr c]
  rw [hfmt]
  rfl

theorem ParseDimensions_coord_two (mx : Matrix) (hfmt : mx.Format = FormatCoordinate)
    (a b : Int) (rest : Str) :
    ParseDimensions mx (joinTokens [intToStr a, intToStr b] ++ '\n' :: rest)
      = .error (.dimThree [intToStr a, intToStr b]) := by
  have h1 : ∀ t ∈ ([intToStr a, intToStr b] : List Str), t ≠ [] := by
    intro t ht
    simp only [List.mem_cons, List.not_mem_nil, or_false] at ht
    rcases ht with rfl | rfl
    · exact intToStr_ne_nil a
    · exact intToStr_ne_nil b
  have h2 : ∀ t ∈ ([intToStr a, intToStr b] : List Str),
      ∀ ch ∈ t, ch ≠ ' ' ∧ ch ≠ '\n' ∧ ch ≠ '\r' := by
    intro t ht
    simp only [List.mem_cons, List.not_mem_nil, or_false] at ht
    rcases ht with rfl | rfl
    · exact intToStr_no_space a
    · exact intToStr_no_space b
  have h3 : ∀ t ∈ ([intToStr a, intToStr b] : List Str), ∀ ch ∈ t, isWS ch = false := by
    intro t ht
    simp only [List.mem_cons, List.not_mem_nil, or_false] at ht
    rcases ht with rfl | rfl
    · exact intToStr_not_ws a
    · exact intToStr_not_ws b
  obtain ⟨hnl, -, -, -, hsplit⟩ := joinTokens_facts _ (by simp) h1 h2 h3
  have htrim := joinTokens_trim _ (by simp) h1 h2 h3
  unfold ParseDimensions
  rw [readLine_append _ _ hnl]
  dsimp only
  rw [htrim, hsplit]
  rw [show ([intToStr a, intToStr b].getD 0 ([] : Str)) = intToStr a from rfl]
  rw [atoi?_intToStr a]
  rw [show ([intToStr a, intToStr b].getD 1 ([] : Str)) = intToStr b from rfl]
  rw [atoi?_intToStr b]
  rw [hfmt]
  rfl

theorem ParseDimensions_one (mx : Matrix) (a : Int) (rest : Str) :
    ParseDimensions mx (joinTokens [intToStr a] ++ '\n' :: rest)
      = .error (.dimTwo [intToStr a]) := by
  have h1 : ∀ t ∈ ([intToStr a] : List Str), t ≠ [] := by
    intro t ht
    rw [List.mem_singleton] at ht
    subst ht
    exact intToStr_ne_nil a
  have h2 : ∀ t ∈ ([intToStr a] : List Str), ∀ ch ∈ t, ch ≠ ' ' ∧ ch ≠ '\n' ∧ ch ≠ '\r' := by
    intro t ht
    rw [List.mem_singleton] at ht
    subst ht
    exact intToStr_no_space a
  have h3 : ∀ t ∈ ([intToStr a] : List Str), ∀ ch ∈ t, isWS ch = false := by
    intro t ht
    rw [List.mem_singleton] at ht
    subst ht
    exact intToStr_not_ws a
  obtain ⟨hnl, -, -, -, hsplit⟩ := joinTokens_facts _ (by simp) h1 h2 h3
  have htrim := joinTokens_trim _ (by simp) h1 h2 h3
  unfold ParseDimensions
  rw [readLine_append _ _ hnl]
  dsimp only
  rw [htrim, hsplit]
  rfl

theorem ParseDimensions_array_two (mx : Matrix) (hfmt : mx.Format = FormatArray)
    (a b : Int) (rest : Str) :
    ParseDimensions mx (joinTokens [intToStr a, intToStr b] ++ '\n' :: rest)
      = .ok ({ mx with n := a, m := b, lines := a * b }, rest) := by
  have h1 : ∀ t ∈ ([intToStr a, intToStr b] : List Str), t ≠ [] := by
    intro t ht
    simp only [List.mem_cons, List.not_mem_nil, or_false] at ht
    rcases ht with rfl | rfl
    · exact intToStr_ne_nil a
    · exact intToStr_ne_nil b
  have h2 : ∀ t ∈ ([intToStr a, intToStr b] : List Str),
      ∀ ch ∈ t, ch ≠ ' ' ∧ ch ≠ '\n' ∧ ch ≠ '\r' := by
    intro t ht
    simp only [List.mem_cons, List.not_mem_nil, or_false] at ht
    rcases ht with rfl | rfl
    · exact intToStr_no_space a
    · exact intToStr_no_space b
  have h3 : ∀ t ∈ ([intToStr a, intToStr b] : List Str), ∀ ch ∈ t, isWS ch = false := by
    intro t ht
    simp only [List.mem_cons, List.not_mem_nil, or_false] at ht
    rcases ht with rfl | rfl
    · exact intToStr_not_ws a
    · exact intToStr_not_ws b
  obtain ⟨hnl, -, -, -, hsplit⟩ := joinTokens_facts _ (by simp) h1 h2 h3
  have htrim := joinTokens_trim _ (by simp) h1 h2 h3
  unfold ParseDimensions
  rw [readLine_append _ _ hnl]
  dsimp only
  rw [htrim, hsplit]
  rw [show ([intToStr a, intToStr b].getD 0 ([] : Str)) = intToStr a from rfl]
  rw [atoi?_intToStr a]
  rw [show ([intToStr a, intToStr b].getD 1 ([] : Str)) = intToStr b from rfl]
  rw [atoi?_intToStr b]
  rw [hfmt]
  rfl

/-! ## Independence of body parsing from the declared element type -/

theorem bodyView_ParseCoordinate_typ (mx : Matrix) (t s : Str) :
    bodyView (ParseCoordinate { mx with Typ := t } s) = bodyView (ParseCoordinate mx s) := by
  unfold ParseCoordinate
  dsimp only
  by_cases h1 : mx.n = 0 ∨ mx.m = 0
  · simp only [if_pos h1]
  · simp only [if_neg h1]
    by_cases h2 : mx.lines < 0 ∨ mx.n < 0 ∨ mx.m < 0
    · simp only [if_pos h2]
    · simp only [if_neg h2]
      cases hc : cooLoop mx.Symmetry ⟨mx.n, mx.m, []⟩ (splitLines s) <;> rfl

theorem bodyView_ParseArrayFormat_typ (mx : Matrix) (t s : Str) :
    bodyView (ParseArrayFormat { mx with Typ := t } s) = bodyView (ParseArrayFormat mx s) := by
  unfold ParseArrayFormat
  dsimp only
  by_cases h1 : mx.n = 0 ∨ mx.m = 0
  · simp only [if_pos h1]
  · simp only [if_neg h1]
    by_cases h2 : mx.n < 0 ∨ mx.m < 0
    · simp only [if_pos h2]
    · simp only [if_neg h2]
      cases hc : arrayLoop (splitLines s) (List.replicate (mx.n * mx.m).toNat 0) 0 <;> rfl

theorem bodyView_ParseMatrix_typ (mx : Matrix) (t s : Str) :
    bodyView (ParseMatrix { mx with Typ := t } s) = bodyView (ParseMatrix mx s) := by
  unfold ParseMatrix
  dsimp only
  by_cases h1 : mx.Format = FormatCoordinate
  · rw [if_pos h1, if_pos h1]
    exact bodyView_ParseCoordinate_typ mx t s
  · rw [if_neg h1, if_neg h1]
    by_cases h2 : mx.Format = FormatArray
    · rw [if_pos h2, if_pos h2]
      exact bodyView_ParseArrayFormat_typ mx t s
    · rw [if_neg h2, if_neg h2]

/-! ## Header characterization -/

/-- The header tokens of a stream: the first line, trimmed, split on
single spaces. -/
def headerTokens (s : Str) : List Str := splitOn ' ' (trimSpace (readLine s).1)

theorem ParseHeader_err_count (mx : Matrix) (s : Str)
    (h : (headerTokens s).length ≠ 5) :
    ParseHeader mx s = .error (.headerTokenCount (headerTokens s)) := by
  unfold headerTokens at h ⊢
  unfold ParseHeader
  dsimp only
  rw [if_pos h]

theorem ParseHeader_err_sentinel (mx : Matrix) (s : Str)
    (h5 : (headerTokens s).length = 5)
    (h : ¬ equalFold ((headerTokens s).getD 0 []) ("%%MatrixMarket".data)) :
    ParseHeader mx s = .error (.headerSentinel ((headerTokens s).getD 0 [])) := by
  unfold headerTokens at h5 h ⊢
  unfold ParseHeader
  dsimp only
  rw [if_neg (not_not_intro h5), if_pos h]

theorem ParseHeader_err_object (mx : Matrix) (s : Str)
    (h5 : (headerTokens s).length = 5)
    (hs : equalFold ((headerTokens s).getD 0 []) ("%%MatrixMarket".data))
    (h : ¬ equalFold ((headerTokens s).getD 1 []) ("matrix".data)) :
    ParseHeader mx s = .error (.headerObject ((headerTokens s).getD 1 [])) := by
  unfold headerTokens at h5 hs h ⊢
  unfold ParseHeader
  dsimp only
  rw [if_neg (not_not_intro h5), if_neg (not_not_intro hs), if_pos h]

theorem ParseHeader_err_format (mx : Matrix) (s : Str)
    (h5 : (headerTokens s).length = 5)
    (hs : equalFold ((headerTokens s).getD 0 []) ("%%MatrixMarket".data))
    (ho : equalFold ((headerTokens s).getD 1 []) ("matrix".data))
    (h : toLowerStr ((headerTokens s).getD 2 []) ≠ FormatArray ∧
      toLowerStr ((headerTokens s).getD 2 []) ≠ FormatCoordinate) :
    ParseHeader mx s = .error (.headerFormat ((headerTokens s).getD 2 [])) := by
  unfold headerTokens at h5 hs ho h ⊢
  unfold ParseHeader
  dsimp only
  rw [if_neg (not_not_intro h5), if_neg (not_not_intro hs), if_neg (not_not_intro ho),
    if_pos h]

theorem ParseHeader_err_type (mx : Matrix) (s : Str)
    (h5 : (headerTokens s).length = 5)
    (hs : equalFold ((headerTokens s).getD 0 []) ("%%MatrixMarket".data))
    (ho : equalFold ((headerTokens s).getD 1 []) ("matrix".data))
    (hf : toLowerStr ((headerTokens s).getD 2 []) = FormatArray ∨
      toLowerStr ((headerTokens s).getD 2 []) = FormatCoordinate)
    (h : toLowerStr ((headerTokens s).getD 3 []) ≠ TypeReal ∧
      toLowerStr ((headerTokens s).getD 3 []) ≠ TypeComplex ∧
      toLowerStr ((headerTokens s).getD 3 []) ≠ TypeInteger ∧
      toLowerStr ((headerTokens s).getD 3 []) ≠ TypePattern) :
    ParseHeader mx s = .error (.headerElemType ((headerTokens s).getD 3 [])) := by
  have hf' : ¬(toLowerStr ((headerTokens s).getD 2 []) ≠ FormatArray ∧
      toLowerStr ((headerTokens s).getD 2 []) ≠ FormatCoordinate) := by
    rcases hf with he | he
    · exact fun hc => hc.1 he
    · exact fun hc => hc.2 he
  unfold headerTokens at h5 hs ho hf' h ⊢
  unfold ParseHeader
  dsimp only
  rw [if_neg (not_not_intro h5), if_neg (not_not_intro hs), if_neg (not_not_intro ho),
    if_neg hf', if_pos h]

theorem ParseHeader_err_symmetry (mx : Matrix) (s : Str)
    (h5 : (headerTokens s).length = 5)
    (hs : equalFold ((headerTokens s).getD 0 []) ("%%MatrixMarket".data))
    (ho : equalFold ((headerTokens s).getD 1 []) ("matrix".data))
    (hf : toLowerStr ((headerTokens s).getD 2 []) = FormatArray ∨
      toLowerStr ((headerTokens s).getD 2 []) = FormatCoordinate)
    (ht : toLowerStr ((headerTokens s).getD 3 []) = TypeReal ∨
      toLowerStr ((headerTokens s).getD 3 []) = TypeComplex ∨
      toLowerStr ((headerTokens s).getD 3 []) = TypeInteger ∨
      toLowerStr ((headerTokens s).getD 3 []) = TypePattern)
    (h : toLowerStr ((headerTokens s).getD 4 []) ≠ General ∧
      toLowerStr ((headerTokens s).getD 4 []) ≠ Symmetric ∧
      toLowerStr ((headerTokens s).getD 4 []) ≠ SkewSymmetric ∧
      toLowerStr ((headerTokens s).getD 4 []) ≠ Hermitian) :
    ParseHeader mx s = .error (.headerSymmetry ((headerTokens s).getD 4 [])) := by
  have hf' : ¬(toLowerStr ((headerTokens s).getD 2 []) ≠ FormatArray ∧
      toLowerStr ((headerTokens s).getD 2 []) ≠ FormatCoordinate) := by
    rcases hf with he | he
    · exact fun hc => hc.1 he
    · exact fun hc => hc.2 he
  have ht' : ¬(toLowerStr ((headerTokens s).getD 3 []) ≠ TypeReal ∧
      toLowerStr ((headerTokens s).getD 3 []) ≠ TypeComplex ∧
      toLowerStr ((headerTokens s).getD 3 []) ≠ TypeInteger ∧
      toLowerStr ((headerTokens s).getD 3 []) ≠ TypePattern) := by
    rcases ht with he | he | he | he
    · exact fun hc => hc.1 he
    · exact fun hc => hc.2.1 he
    · exact fun hc => hc.2.2.1 he
    · exact fun hc => hc.2.2.2 he
  unfold headerTokens at h5 hs ho hf' ht' h ⊢
  unfold ParseHeader
  dsimp only
  rw [if_neg (not_not_intro h5), if_neg (not_not_intro hs), if_neg (not_not_intro ho),
    if_neg hf', if_neg ht', if_pos h]

theorem ParseHeader_ok (mx : Matrix) (s : Str)
    (h5 : (headerTokens s).length = 5)
    (hs : equalFold ((headerTokens s).getD 0 []) ("%%MatrixMarket".data))
    (ho : equalFold ((headerTokens s).getD 1 []) ("matrix".data))
    (hf : toLowerStr ((headerTokens s).getD 2 []) = FormatArray ∨
      toLowerStr ((headerTokens s).getD 2 []) = FormatCoordinate)
    (ht : toLowerStr ((headerTokens s).getD 3 []) = TypeReal ∨
      toLowerStr ((headerTokens s).getD 3 []) = TypeComplex ∨
      toLowerStr ((headerTokens s).getD 3 []) = TypeInteger ∨
      toLowerStr ((headerTokens s).getD 3 []) = TypePattern)
    (hy : toLowerStr ((headerTokens s).getD 4 []) = General ∨
      toLowerStr ((headerTokens s).getD 4 []) = Symmetric ∨
      toLowerStr ((headerTokens s).getD 4 []) = SkewSymmetric ∨
      toLowerStr ((headerTokens s).getD 4 []) = Hermitian) :
    ParseHeader mx s = .ok ({ mx with
      Format := toLowerStr ((headerTokens s).getD 2 []),
      Typ := toLowerStr ((headerTokens s).getD 3 []),
      Symmetry := toLowerStr ((headerTokens s).getD 4 []) }, (readLine s).2.1) := by
  have hf' : ¬(toLowerStr ((headerTokens s).getD 2 []) ≠ FormatArray ∧
      toLowerStr ((headerTokens s).getD 2 []) ≠ FormatCoordinate) := by
    rcases hf with he | he
    · exact fun hc => hc.1 he
    · exact fun hc => hc.2 he
  have ht' : ¬(toLowerStr ((headerTokens s).getD 3 []) ≠ TypeReal ∧
      toLowerStr ((headerTokens s).getD 3 []) ≠ TypeComplex ∧
      toLowerStr ((headerTokens s).getD 3 []) ≠ TypeInteger ∧
      toLowerStr ((headerTokens s).getD 3 []) ≠ TypePattern) := by
    rcases ht with he | he | he | he
    · exact fun hc => hc.1 he
    · exact fun hc => hc.2.1 he
    · exact fun hc => hc.2.2.1 he
    · exact fun hc => hc.2.2.2 he
  have hy' : ¬(toLowerStr ((headerTokens s).getD 4 []) ≠ General ∧
      toLowerStr ((headerTokens s).getD 4 []) ≠ Symmetric ∧
      toLowerStr ((headerTokens s).getD 4 []) ≠ SkewSymmetric ∧
      toLowerStr ((headerTokens s).getD 4 []) ≠ Hermitian) := by
    rcases hy with he | he | he | he
    · exact fun hc => hc.1 he
    · exact fun hc => hc.2.1 he
    · exact fun hc => hc.2.2.1 he
    · exact fun hc => hc.2.2.2 he
  unfold headerTokens at h5 hs ho hf' ht' hy' ⊢
  unfold ParseHeader
  dsimp only
  rw [if_neg (not_not_intro h5), if_neg (not_not_intro hs), if_neg (not_not_intro ho),
    if_neg hf', if_neg ht', if_neg hy']

/-! ## The claims -/

/-- C8: encoding an assembled sparse matrix with SaveToMatrixMarket and
re-parsing the encoded text yields a matrix with identical dims, an
identical stored-entry count, and the original value at every
previously stored coordinate.  The hypotheses say the matrix is well
formed: positive dims, in-bounds coordinates, nonzero values exactly
representable as decimal floats, and distinct coordinates. -/
theorem C8_sparse_roundtrip (n m : Int) (es : List (Int × Int × ℚ))
    (hn : 0 < n) (hm : 0 < m)
    (hb : ∀ e ∈ es, 0 ≤ e.1 ∧ e.1 < n ∧ 0 ≤ e.2.1 ∧ e.2.1 < m)
    (hnz : ∀ e ∈ es, e.2.2 ≠ 0)
    (hdec : ∀ e ∈ es, isDecimalRat e.2.2 = true)
    (hdist : es.Pairwise coordNe) :
    ∃ mx : Matrix, Parse {} (SaveToMatrixMarket (.csr n m es)) = .ok (mx, []) ∧
      mx.mat = some (.csr n m es) ∧
      mx.Dims = (n, m) ∧
      matNNZ (.csr n m es) = es.length ∧
      ∀ e ∈ es, matAt (.csr n m es) e.1 e.2.1 = e.2.2 := by
  have hshape : SaveToMatrixMarket (.csr n m es)
      = "%%MatrixMarket matrix coordinate real general".data
          ++ '\n' :: ((intToStr n ++ ' ' :: (intToStr m ++ ' ' :: intToStr (es.length : Int)))
            ++ '\n' :: es.flatMap entryLine) := by
    show headerLineCoord ++ intToStr n ++ ' ' :: intToStr m
        ++ ' ' :: intToStr (es.length : Int) ++ '\n' :: es.flatMap entryLine = _
    rw [show headerLineCoord
        = "%%MatrixMarket matrix coordinate real general".data ++ ['\n'] from rfl]
    simp [List.append_assoc]
  obtain ⟨c0, t0, hct, hd0⟩ := intToStr_head_digit_of_nonneg n (le_of_lt hn)
  have hstop : ∀ c t,
      ((intToStr n ++ ' ' :: (intToStr m ++ ' ' :: intToStr (es.length : Int)))
        ++ '\n' :: es.flatMap entryLine) = c :: t →
      ¬(c = '%' ∨ c = '\n' ∨ c = ' ' ∨ c = '\t') := by
    intro c t heq
    rw [hct] at heq
    simp only [List.cons_append, List.append_assoc] at heq
    rw [List.cons.injEq] at heq
    obtain ⟨rfl, -⟩ := heq
    have hb48 := digit_toNat c0 hd0
    intro hor
    rcases hor with rfl | rfl | rfl | rfl <;> revert hb48 <;> decide
  have h1 := ParseHeader_coord_general ({} : Matrix)
    ((intToStr n ++ ' ' :: (intToStr m ++ ' ' :: intToStr (es.length : Int)))
      ++ '\n' :: es.flatMap entryLine)
  have h2 := ParseComment_stop
    ({ Format := FormatCoordinate, Typ := TypeReal, Symmetry := General } : Matrix) _ hstop
  have h3 : ParseDimensions
      ({ Format := FormatCoordinate, Typ := TypeReal, Symmetry := General } : Matrix)
      ((intToStr n ++ ' ' :: (intToStr m ++ ' ' :: intToStr (es.length : Int)))
        ++ '\n' :: es.flatMap entryLine)
      = .ok ({ Format := FormatCoordinate, Typ := TypeReal, Symmetry := General, n := n, m := m, lines := (es.length : Int) }, es.flatMap entryLine) :=
    ParseDimensions_coord _ rfl n m (es.length : Int) (es.flatMap entryLine)
  have hparse' : List.Forall₂ (fun l t => splitTriplet l = .ok t)
      (splitLines (es.flatMap entryLine))
      (es.map (fun e => (e.1 + 1, e.2.1 + 1, e.2.2))) := by
    rw [splitLines_entryLines]
    exact forall₂_map_self _ entryBody _ es (fun e he => splitTriplet_entryBody e (hdec e he))
  have hnz' : ∀ t ∈ es.map (fun e => (e.1 + 1, e.2.1 + 1, e.2.2)), t.2.2 ≠ 0 := by
    intro t ht
    obtain ⟨e, he, rfl⟩ := List.mem_map.mp ht
    exact hnz e he
  have hbounds' : ∀ t ∈ es.map (fun e => (e.1 + 1, e.2.1 + 1, e.2.2)),
      1 ≤ t.1 ∧ t.1 ≤ n ∧ 1 ≤ t.2.1 ∧ t.2.1 ≤ m ∧
        (t.1 ≠ t.2.1 → General = Symmetric ∨ General = SkewSymmetric →
          1 ≤ t.2.1 ∧ t.2.1 ≤ n ∧ 1 ≤ t.1 ∧ t.1 ≤ m) := by
    intro t ht
    obtain ⟨e, he, rfl⟩ := List.mem_map.mp ht
    obtain ⟨hb1, hb2, hb3, hb4⟩ := hb e he
    refine ⟨by dsimp only; omega, by dsimp only; omega, by dsimp only; omega,
      by dsimp only; omega, ?_⟩
    intro _ hor
    exact absurd hor (by decide)
  have h4 : ParseMatrix
      ({ Format := FormatCoordinate, Typ := TypeReal, Symmetry := General, n := n, m := m, lines := (es.length : Int) } : Matrix) (es.flatMap entryLine)
      = .ok ({ Format := FormatCoordinate, Typ := TypeReal, Symmetry := General, n := n, m := m, lines := (es.length : Int), mat := some (.csr n m es) }, []) := by
    rw [ParseMatrix_coord _ _ rfl]
    have hco := ParseCoordinate_ok
      ({ Format := FormatCoordinate, Typ := TypeReal, Symmetry := General, n := n, m := m, lines := (es.length : Int) } : Matrix)
      (es.flatMap entryLine) (es.map (fun e => (e.1 + 1, e.2.1 + 1, e.2.2)))
      hn hm (Int.natCast_nonneg es.length) hparse' hnz' hbounds'
    rw [hco]
    have hflat : (es.map (fun e => (e.1 + 1, e.2.1 + 1, e.2.2))).flatMap
        (specMirrorExpansion ({ Format := FormatCoordinate, Typ := TypeReal, Symmetry := General, n := n, m := m, lines := (es.length : Int) } : Matrix).Symmetry) = es :=
      flatMap_general_entries es
    rw [hflat, dedupLast_eq_self es hdist]
  have hparseEq : Parse {} (SaveToMatrixMarket (.csr n m es))
      = .ok ({ Format := FormatCoordinate, Typ := TypeReal, Symmetry := General, n := n, m := m, lines := (es.length : Int), mat := some (.csr n m es) }, []) := by
    rw [hshape]
    unfold Parse
    rw [h1]
    dsimp only
    rw [h2]
    dsimp only
    rw [h3]
    dsimp only
    rw [h4]
  refine ⟨_, hparseEq, rfl, rfl, rfl, ?_⟩
  intro e he
  show (findVal? es e.1 e.2.1).getD 0 = e.2.2
  rw [findVal?_mem es hdist e he]
  rfl

theorem C8_sparse_roundtrip_witness :
    ∃ mx : Matrix,
      Parse {} (SaveToMatrixMarket (.csr 2 2 [(0, 0, 1), (1, 1, mkRat 21 2)])) = .ok (mx, []) ∧
      mx.mat = some (.csr 2 2 [(0, 0, 1), (1, 1, mkRat 21 2)]) ∧
      mx.Dims = (2, 2) ∧
      matNNZ (.csr 2 2 [(0, 0, 1), (1, 1, mkRat 21 2)])
        = [((0 : Int), (0 : Int), (1 : ℚ)), (1, 1, mkRat 21 2)].length ∧
      ∀ e ∈ [((0 : Int), (0 : Int), (1 : ℚ)), (1, 1, mkRat 21 2)],
        matAt (.csr 2 2 [(0, 0, 1), (1, 1, mkRat 21 2)]) e.1 e.2.1 = e.2.2 :=
  C8_sparse_roundtrip 2 2 [(0, 0, 1), (1, 1, mkRat 21 2)] (by decide) (by decide)
    (by decide) (by decide) (by decide)
    (List.Pairwise.cons (by decide)
      (List.Pairwise.cons (fun b hb => absurd hb (List.not_mem_nil b)) List.Pairwise.nil))

/-- C1 counterexample: an array-format body with three value lines for a
2 by 2 matrix does not fail; it succeeds with the missing entry left at
zero. -/
theorem C1_counterexample :
    (ParseArrayFormat { Format := FormatArray, n := 2, m := 2 } ("1.0\n2.0\n3.0".data)).toOption.map
        (fun p => (p.2, matAt (p.1.mat.getD (.csr 0 0 [])) 1 1))
      = some ([], 0) := by decide

/-- C1 (amended): for every array-format stream whose lines all parse as
floats but number at most rows times cols, body parsing succeeds, and
every position whose column-major index is at least the number of read
values holds the zero default. -/
theorem C1_array_shortfall (mx : Matrix) (s : Str) (vs : List ℚ) (N M : Nat)
    (hn : mx.n = (N : Int)) (hm : mx.m = (M : Int)) (hN : 0 < N) (hM : 0 < M)
    (hparse : List.Forall₂ (fun l v => parseFloat? (trimSpace l) = some v) (splitLines s) vs)
    (hshort : vs.length ≤ N * M) :
    ∃ mx', ParseArrayFormat mx s = .ok (mx', []) ∧
      ∀ k : Nat, vs.length ≤ k → k < N * M →
        matAt (mx'.mat.getD (.csr 0 0 [])) ((k % N : Nat) : Int) ((k / N : Nat) : Int) = 0 := by
  obtain ⟨mx', hEq, -, -, -, hAt⟩ := ParseArrayFormat_at mx s vs N M hn hm hN hM hparse hshort
  refine ⟨mx', hEq, ?_⟩
  intro k hk1 hk2
  rw [hAt k hk2, if_neg (by omega)]

theorem C1_array_shortfall_witness :
    ∃ mx', ParseArrayFormat { Format := FormatArray, n := 2, m := 2 } ("1.0\n".data)
        = .ok (mx', []) ∧
      ∀ k : Nat, 1 ≤ k → k < 2 * 2 →
        matAt (mx'.mat.getD (.csr 0 0 [])) ((k % 2 : Nat) : Int) ((k / 2 : Nat) : Int) = 0 :=
  C1_array_shortfall { Format := FormatArray, n := 2, m := 2 } ("1.0\n".data) [1] 2 2
    (by decide) (by decide) (by decide) (by decide)
    (List.Forall₂.cons (by decide) List.Forall₂.nil) (by decide)

/-- C2: under symmetric symmetry every off-diagonal entry (r, c, v) is
stored together with its mirror, and the assembled matrix reads v at
both (r-1, c-1) and (c-1, r-1); under skew-symmetric the mirror reads
-v; the stored entry list is exactly the spec-modelled expansion (which
adds nothing on the diagonal); and under general or hermitian symmetry
no mirrored coordinate is ever stored. -/
theorem C2_symmetry_mirroring (mx : Matrix) (s : Str) (ts : List (Int × Int × ℚ))
    (hn : 0 < mx.n) (hm : 0 < mx.m) (hl : 0 ≤ mx.lines)
    (hparse : List.Forall₂ (fun l t => splitTriplet l = .ok t) (splitLines s) ts)
    (hnz : ∀ t ∈ ts, t.2.2 ≠ 0)
    (hbounds : ∀ t ∈ ts, 1 ≤ t.1 ∧ t.1 ≤ mx.n ∧ 1 ≤ t.2.1 ∧ t.2.1 ≤ mx.m ∧
      (t.1 ≠ t.2.1 → mx.Symmetry = Symmetric ∨ mx.Symmetry = SkewSymmetric →
        1 ≤ t.2.1 ∧ t.2.1 ≤ mx.n ∧ 1 ≤ t.1 ∧ t.1 ≤ mx.m))
    (hdist : ts.Pairwise unorderedCoordNe) :
    ∃ mx' : Matrix, ParseCoordinate mx s = .ok (mx', []) ∧
      mx'.mat = some (.csr mx.n mx.m (ts.flatMap (specMirrorExpansion mx.Symmetry))) ∧
      (∀ t ∈ ts, t.1 ≠ t.2.1 → mx.Symmetry = Symmetric →
        matAt (.csr mx.n mx.m (ts.flatMap (specMirrorExpansion mx.Symmetry)))
            (t.1 - 1) (t.2.1 - 1) = t.2.2 ∧
          matAt (.csr mx.n mx.m (ts.flatMap (specMirrorExpansion mx.Symmetry)))
            (t.2.1 - 1) (t.1 - 1) = t.2.2) ∧
      (∀ t ∈ ts, t.1 ≠ t.2.1 → mx.Symmetry = SkewSymmetric →
        matAt (.csr mx.n mx.m (ts.flatMap (specMirrorExpansion mx.Symmetry)))
            (t.1 - 1) (t.2.1 - 1) = t.2.2 ∧
          matAt (.csr mx.n mx.m (ts.flatMap (specMirrorExpansion mx.Symmetry)))
            (t.2.1 - 1) (t.1 - 1) = -t.2.2) ∧
      (∀ t ∈ ts, t.1 ≠ t.2.1 → mx.Symmetry = General ∨ mx.Symmetry = Hermitian →
        ∀ w : ℚ, (t.2.1 - 1, t.1 - 1, w) ∉ ts.flatMap (specMirrorExpansion mx.Symmetry)) := by
  have hpw : (ts.flatMap (specMirrorExpansion mx.Symmetry)).Pairwise coordNe :=
    expansion_pairwise mx.Symmetry ts hdist
  have hok := ParseCoordinate_ok mx s ts hn hm hl hparse hnz hbounds
  rw [dedupLast_eq_self _ hpw] at hok
  refine ⟨_, hok, rfl, ?_, ?_, ?_⟩
  · intro t ht hij hsym
    have hmem1 : (t.1 - 1, t.2.1 - 1, t.2.2) ∈ ts.flatMap (specMirrorExpansion mx.Symmetry) := by
      refine List.mem_flatMap.mpr ⟨t, ht, ?_⟩
      rw [hsym, specMirrorExpansion_symmetric t hij]
      exact List.mem_cons_self _ _
    have hmem2 : (t.2.1 - 1, t.1 - 1, t.2.2) ∈ ts.flatMap (specMirrorExpansion mx.Symmetry) := by
      refine List.mem_flatMap.mpr ⟨t, ht, ?_⟩
      rw [hsym, specMirrorExpansion_symmetric t hij]
      exact List.mem_cons_of_mem _ (List.mem_cons_self _ _)
    constructor
    · show (findVal? _ _ _).getD 0 = t.2.2
      have hf := findVal?_mem _ hpw (t.1 - 1, t.2.1 - 1, t.2.2) hmem1
      dsimp only at hf
      rw [hf]
      rfl
    · show (findVal? _ _ _).getD 0 = t.2.2
      have hf := findVal?_mem _ hpw (t.2.1 - 1, t.1 - 1, t.2.2) hmem2
      dsimp only at hf
      rw [hf]
      rfl
  · intro t ht hij hsym
    have hmem1 : (t.1 - 1, t.2.1 - 1, t.2.2) ∈ ts.flatMap (specMirrorExpansion mx.Symmetry) := by
      refine List.mem_flatMap.mpr ⟨t, ht, ?_⟩
      rw [hsym, specMirrorExpansion_skew t hij]
      exact List.mem_cons_self _ _
    have hmem2 : (t.2.1 - 1, t.1 - 1, -t.2.2) ∈ ts.flatMap (specMirrorExpansion mx.Symmetry) := by
      refine List.mem_flatMap.mpr ⟨t, ht, ?_⟩
      rw [hsym, specMirrorExpansion_skew t hij]
      exact List.mem_cons_of_mem _ (List.mem_cons_self _ _)
    constructor
    · show (findVal? _ _ _).getD 0 = t.2.2
      have hf := findVal?_mem _ hpw (t.1 - 1, t.2.1 - 1, t.2.2) hmem1
      dsimp only at hf
      rw [hf]
      rfl
    · show (findVal? _ _ _).getD 0 = -t.2.2
      have hf := findVal?_mem _ hpw (t.2.1 - 1, t.1 - 1, -t.2.2) hmem2
      dsimp only at hf
      rw [hf]
      rfl
  · intro t ht hij hsym w hmem
    obtain ⟨u, hu, hmem2⟩ := List.mem_flatMap.mp hmem
    have hsingle : specMirrorExpansion mx.Symmetry u = [(u.1 - 1, u.2.1 - 1, u.2.2)] := by
      rcases hsym with h | h <;> rw [h]
      · exact specMirrorExpansion_single General (by decide) (by decide) u
      · exact specMirrorExpansion_single Hermitian (by decide) (by decide) u
    rw [hsingle, List.mem_singleton] at hmem2
    have he1 : t.2.1 - 1 = u.1 - 1 := congrArg Prod.fst hmem2
    have he2 : t.1 - 1 = u.2.1 - 1 := congrArg (fun p => p.2.1) hmem2
    have hu1 : u.1 = t.2.1 := by omega
    have hu2 : u.2.1 = t.1 := by omega
    rcases pairwise_mem_cases hdist t ht u hu with heq | hR | hR
    · subst heq
      exact hij (by omega)
    · exact hR.2 (by rw [hu1, hu2])
    · exact hR.2 (by rw [hu1, hu2])

theorem C2_symmetry_mirroring_witness :
    ∃ mx' : Matrix,
      ParseCoordinate { Symmetry := Symmetric, n := 2, m := 2 } ("2 1 7.0".data)
        = .ok (mx', []) ∧
      mx'.mat = some (.csr 2 2
        ([((2 : Int), (1 : Int), (7 : ℚ))].flatMap (specMirrorExpansion Symmetric))) ∧
      (∀ t ∈ [((2 : Int), (1 : Int), (7 : ℚ))], t.1 ≠ t.2.1 → Symmetric = Symmetric →
        matAt (.csr 2 2 ([((2 : Int), (1 : Int), (7 : ℚ))].flatMap
            (specMirrorExpansion Symmetric))) (t.1 - 1) (t.2.1 - 1) = t.2.2 ∧
          matAt (.csr 2 2 ([((2 : Int), (1 : Int), (7 : ℚ))].flatMap
            (specMirrorExpansion Symmetric))) (t.2.1 - 1) (t.1 - 1) = t.2.2) ∧
      (∀ t ∈ [((2 : Int), (1 : Int), (7 : ℚ))], t.1 ≠ t.2.1 → Symmetric = SkewSymmetric →
        matAt (.csr 2 2 ([((2 : Int), (1 : Int), (7 : ℚ))].flatMap
            (specMirrorExpansion Symmetric))) (t.1 - 1) (t.2.1 - 1) = t.2.2 ∧
          matAt (.csr 2 2 ([((2 : Int), (1 : Int), (7 : ℚ))].flatMap
            (specMirrorExpansion Symmetric))) (t.2.1 - 1) (t.1 - 1) = -t.2.2) ∧
      (∀ t ∈ [((2 : Int), (1 : Int), (7 : ℚ))], t.1 ≠ t.2.1 →
        Symmetric = General ∨ Symmetric = Hermitian →
        ∀ w : ℚ, (t.2.1 - 1, t.1 - 1, w) ∉
          [((2 : Int), (1 : Int), (7 : ℚ))].flatMap (specMirrorExpansion Symmetric)) :=
  C2_symmetry_mirroring { Symmetry := Symmetric, n := 2, m := 2 } ("2 1 7.0".data)
    [(2, 1, 7)] (by decide) (by decide) (by decide)
    (List.Forall₂.cons (by decide) List.Forall₂.nil) (by decide) (by decide)
    (List.Pairwise.cons (fun b hb => absurd hb (List.not_mem_nil b)) List.Pairwise.nil)

/-- C3: for a fully populated array-format body the k-th value read
(column-major) is stored at logical position (k mod rows, k div rows);
and on the 4 by 3 example listing 1.0 through 12.0, at(0,0) is 1.0 and
at(3,2) is 12.0. -/
theorem C3_array_column_major (mx : Matrix) (s : Str) (vs : List ℚ) (N M : Nat)
    (hn : mx.n = (N : Int)) (hm : mx.m = (M : Int)) (hN : 0 < N) (hM : 0 < M)
    (hparse : List.Forall₂ (fun l v => parseFloat? (trimSpace l) = some v) (splitLines s) vs)
    (hfull : vs.length = N * M) :
    (∃ mx', ParseArrayFormat mx s = .ok (mx', []) ∧
      ∀ k : Nat, k < N * M →
        matAt (mx'.mat.getD (.csr 0 0 [])) ((k % N : Nat) : Int) ((k / N : Nat) : Int)
          = vs.getD k 0) ∧
    (Parse {} ("%%MatrixMarket matrix array real general\n4 3\n1.0\n2.0\n3.0\n4.0\n5.0\n6.0\n7.0\n8.0\n9.0\n10.0\n11.0\n12.0".data)).toOption.map
        (fun p => (matAt (p.1.mat.getD (.csr 0 0 [])) 0 0,
          matAt (p.1.mat.getD (.csr 0 0 [])) 3 2))
      = some (1, 12) := by
  constructor
  · obtain ⟨mx', hEq, -, -, -, hAt⟩ :=
      ParseArrayFormat_at mx s vs N M hn hm hN hM hparse (le_of_eq hfull)
    refine ⟨mx', hEq, ?_⟩
    intro k hk
    rw [hAt k hk, if_pos (by omega)]
  · decide

theorem C3_array_column_major_witness :
    (∃ mx', ParseArrayFormat { Format := FormatArray, n := 1, m := 2 } ("1.0\n2.0".data)
        = .ok (mx', []) ∧
      ∀ k : Nat, k < 1 * 2 →
        matAt (mx'.mat.getD (.csr 0 0 [])) ((k % 1 : Nat) : Int) ((k / 1 : Nat) : Int)
          = [(1 : ℚ), 2].getD k 0) ∧
    (Parse {} ("%%MatrixMarket matrix array real general\n4 3\n1.0\n2.0\n3.0\n4.0\n5.0\n6.0\n7.0\n8.0\n9.0\n10.0\n11.0\n12.0".data)).toOption.map
        (fun p => (matAt (p.1.mat.getD (.csr 0 0 [])) 0 0,
          matAt (p.1.mat.getD (.csr 0 0 [])) 3 2))
      = some (1, 12) :=
  C3_array_column_major { Format := FormatArray, n := 1, m := 2 } ("1.0\n2.0".data)
    [1, 2] 1 2 (by decide) (by decide) (by decide) (by decide)
    (List.Forall₂.cons (by decide) (List.Forall₂.cons (by decide) List.Forall₂.nil))
    (by decide)

/-- C4 counterexample: a coordinate size line with four integer tokens
is accepted (the fourth token is ignored), so exactly three tokens are
not required. -/
theorem C4_counterexample :
    ParseDimensions { Format := FormatCoordinate } ("1 2 3 4\n".data)
      = .ok ({ Format := FormatCoordinate, n := 1, m := 2, lines := 3 }, []) := by decide

/-- C4 (amended): the coordinate size line needs at least three integer
tokens (the first three are used, extra tokens are ignored; two tokens
give a DimensionError naming them, one token likewise), and the array
size line needs two tokens with the line count computed as rows times
cols, never read from the input. -/
theorem C4_dimension_token_counts :
    (∀ (mx : Matrix) (a b c : Int) (rest : Str), mx.Format = FormatCoordinate →
      ParseDimensions mx (joinTokens [intToStr a, intToStr b, intToStr c] ++ '\n' :: rest)
        = .ok ({ mx with n := a, m := b, lines := c }, rest)) ∧
    (∀ (mx : Matrix) (a b c : Int) (x : Str) (rest : Str), mx.Format = FormatCoordinate →
      x ≠ [] → (∀ ch ∈ x, ch ≠ ' ' ∧ ch ≠ '\n' ∧ ch ≠ '\r') → (∀ ch ∈ x, isWS ch = false) →
      ParseDimensions mx (joinTokens [intToStr a, intToStr b, intToStr c, x] ++ '\n' :: rest)
        = .ok ({ mx with n := a, m := b, lines := c }, rest)) ∧
    (∀ (mx : Matrix) (a b : Int) (rest : Str), mx.Format = FormatCoordinate →
      ParseDimensions mx (joinTokens [intToStr a, intToStr b] ++ '\n' :: rest)
        = .error (.dimThree [intToStr a, intToStr b])) ∧
    (∀ (mx : Matrix) (a : Int) (rest : Str),
      ParseDimensions mx (joinTokens [intToStr a] ++ '\n' :: rest)
        = .error (.dimTwo [intToStr a])) ∧
    (∀ (mx : Matrix) (a b : Int) (rest : Str), mx.Format = FormatArray →
      ParseDimensions mx (joinTokens [intToStr a, intToStr b] ++ '\n' :: rest)
        = .ok ({ mx with n := a, m := b, lines := a * b }, rest)) :=
  ⟨fun mx a b c rest h => ParseDimensions_coord mx h a b c rest,
   fun mx a b c x rest h hx1 hx2 hx3 => ParseDimensions_coord_extra mx h a b c x hx1 hx2 hx3 rest,
   fun mx a b rest h => ParseDimensions_coord_two mx h a b rest,
   fun mx a rest => ParseDimensions_one mx a rest,
   fun mx a b rest h => ParseDimensions_array_two mx h a b rest⟩

theorem C4_dimension_token_counts_witness :
    ParseDimensions { Format := FormatCoordinate }
        (joinTokens [intToStr 1, intToStr 2, intToStr 3, "9".data] ++ '\n' :: [])
      = .ok ({ Format := FormatCoordinate, n := 1, m := 2, lines := 3 }, []) :=
  C4_dimension_token_counts.2.1 { Format := FormatCoordinate } 1 2 3 ("9".data) []
    rfl (by decide) (by decide) (by decide)

/-- C5 counterexample: the size line 0 0 0 parses without error and
stores zero rows and cols, so success does not imply positive
dimensions. -/
theorem C5_counterexample :
    ParseDimensions { Format := FormatCoordinate } ("0 0 0\n".data)
      = .ok ({ Format := FormatCoordinate, n := 0, m := 0, lines := 0 }, []) := by decide

/-- C5 (amended): dimension parsing stores whatever integers appear on
the size line with no positivity validation (zero and negative values
are accepted); zero rows or cols are instead rejected later by both
body parsers; and no later parsing stage modifies rows or cols. -/
theorem C5_dims_stored_unvalidated :
    (∀ (mx : Matrix) (a b c : Int) (rest : Str), mx.Format = FormatCoordinate →
      ParseDimensions mx (joinTokens [intToStr a, intToStr b, intToStr c] ++ '\n' :: rest)
        = .ok ({ mx with n := a, m := b, lines := c }, rest)) ∧
    (∀ (mx : Matrix) (s : Str) (mx' : Matrix) (r : Str),
      ParseMatrix mx s = .ok (mx', r) → mx'.n = mx.n ∧ mx'.m = mx.m) ∧
    (∀ (mx : Matrix) (s : Str), mx.n = 0 ∨ mx.m = 0 →
      ParseCoordinate mx s = .error (.emptyDims mx.n mx.m)) ∧
    (∀ (mx : Matrix) (s : Str), mx.n = 0 ∨ mx.m = 0 →
      ParseArrayFormat mx s = .error (.emptyDims mx.n mx.m)) :=
  ⟨fun mx a b c rest h => ParseDimensions_coord mx h a b c rest,
   ParseMatrix_preserves, ParseCoordinate_empty_dims, ParseArrayFormat_empty_dims⟩

theorem C5_dims_stored_unvalidated_witness :
    ParseDimensions { Format := FormatCoordinate }
        (joinTokens [intToStr (-3), intToStr 0, intToStr (-7)] ++ '\n' :: [])
      = .ok ({ Format := FormatCoordinate, n := -3, m := 0, lines := -7 }, []) :=
  C5_dims_stored_unvalidated.1 { Format := FormatCoordinate } (-3) 0 (-7) [] rfl

/-- C6 counterexample: an input declaring element type integer parses
through the body successfully (value 5 readable at (0,0)); the body
parser does not reject non-real element types. -/
theorem C6_counterexample :
    (Parse {} ("%%MatrixMarket matrix coordinate integer general\n1 1 1\n1 1 5\n".data)).toOption.map
        (fun p => (p.1.Typ, matAt (p.1.mat.getD (.csr 0 0 [])) 0 0))
      = some ("integer".data, 5) := by decide

/-- C6 (amended): body parsing never consults the declared element
type: its observable result (matrix value and remaining stream, or
error) is identical for any stored Typ; in particular the
integer-typed example parses fully, its single value read as a float. -/
theorem C6_body_ignores_type :
    (∀ (mx : Matrix) (t s : Str),
      bodyView (ParseMatrix { mx with Typ := t } s) = bodyView (ParseMatrix mx s)) ∧
    ((Parse {} ("%%MatrixMarket matrix coordinate integer general\n1 1 1\n1 1 5\n".data)).toOption.map
        (fun p => matAt (p.1.mat.getD (.csr 0 0 [])) 0 0) = some 5) :=
  ⟨bodyView_ParseMatrix_typ, by decide⟩

/-- C7: the header parser requires exactly 5 space-separated tokens on
the trimmed first line, with the sentinel, object, format, element
type and symmetry each checked case-insensitively; every violation
produces an error carrying the offending token list or token; and the
single-percent header fails naming its first token. -/
theorem C7_header_contract :
    (∀ (mx : Matrix) (s : Str), (headerTokens s).length ≠ 5 →
      ParseHeader mx s = .error (.headerTokenCount (headerTokens s))) ∧
    (∀ (mx : Matrix) (s : Str), (headerTokens s).length = 5 →
      ¬ equalFold ((headerTokens s).getD 0 []) ("%%MatrixMarket".data) →
      ParseHeader mx s = .error (.headerSentinel ((headerTokens s).getD 0 []))) ∧
    (∀ (mx : Matrix) (s : Str), (headerTokens s).length = 5 →
      equalFold ((headerTokens s).getD 0 []) ("%%MatrixMarket".data) →
      ¬ equalFold ((headerTokens s).getD 1 []) ("matrix".data) →
      ParseHeader mx s = .error (.headerObject ((headerTokens s).getD 1 []))) ∧
    (∀ (mx : Matrix) (s : Str), (headerTokens s).length = 5 →
      equalFold ((headerTokens s).getD 0 []) ("%%MatrixMarket".data) →
      equalFold ((headerTokens s).getD 1 []) ("matrix".data) →
      toLowerStr ((headerTokens s).getD 2 []) ≠ FormatArray ∧
        toLowerStr ((headerTokens s).getD 2 []) ≠ FormatCoordinate →
      ParseHeader mx s = .error (.headerFormat ((headerTokens s).getD 2 []))) ∧
    (∀ (mx : Matrix) (s : Str), (headerTokens s).length = 5 →
      equalFold ((headerTokens s).getD 0 []) ("%%MatrixMarket".data) →
      equalFold ((headerTokens s).getD 1 []) ("matrix".data) →
      (toLowerStr ((headerTokens s).getD 2 []) = FormatArray ∨
        toLowerStr ((headerTokens s).getD 2 []) = FormatCoordinate) →
      (toLowerStr ((headerTokens s).getD 3 []) ≠ TypeReal ∧
        toLowerStr ((headerTokens s).getD 3 []) ≠ TypeComplex ∧
        toLowerStr ((headerTokens s).getD 3 []) ≠ TypeInteger ∧
        toLowerStr ((headerTokens s).getD 3 []) ≠ TypePattern) →
      ParseHeader mx s = .error (.headerElemType ((headerTokens s).getD 3 []))) ∧
    (∀ (mx : Matrix) (s : Str), (headerTokens s).length = 5 →
      equalFold ((headerTokens s).getD 0 []) ("%%MatrixMarket".data) →
      equalFold ((headerTokens s).getD 1 []) ("matrix".data) →
      (toLowerStr ((headerTokens s).getD 2 []) = FormatArray ∨
        toLowerStr ((headerTokens s).getD 2 []) = FormatCoordinate) →
      (toLowerStr ((headerTokens s).getD 3 []) = TypeReal ∨
        toLowerStr ((headerTokens s).getD 3 []) = TypeComplex ∨
        toLowerStr ((headerTokens s).getD 3 []) = TypeInteger ∨
        toLowerStr ((headerTokens s).getD 3 []) = TypePattern) →
      (toLowerStr ((headerTokens s).getD 4 []) ≠ General ∧
        toLowerStr ((headerTokens s).getD 4 []) ≠ Symmetric ∧
        toLowerStr ((headerTokens s).getD 4 []) ≠ SkewSymmetric ∧
        toLowerStr ((headerTokens s).getD 4 []) ≠ Hermitian) →
      ParseHeader mx s = .error (.headerSymmetry ((headerTokens s).getD 4 []))) ∧
    (∀ (mx : Matrix) (s : Str), (headerTokens s).length = 5 →
      equalFold ((headerTokens s).getD 0 []) ("%%MatrixMarket".data) →
      equalFold ((headerTokens s).getD 1 []) ("matrix".data) →
      (toLowerStr ((headerTokens s).getD 2 []) = FormatArray ∨
        toLowerStr ((headerTokens s).getD 2 []) = FormatCoordinate) →
      (toLowerStr ((headerTokens s).getD 3 []) = TypeReal ∨
        toLowerStr ((headerTokens s).getD 3 []) = TypeComplex ∨
        toLowerStr ((headerTokens s).getD 3 []) = TypeInteger ∨
        toLowerStr ((headerTokens s).getD 3 []) = TypePattern) →
      (toLowerStr ((headerTokens s).getD 4 []) = General ∨
        toLowerStr ((headerTokens s).getD 4 []) = Symmetric ∨
        toLowerStr ((headerTokens s).getD 4 []) = SkewSymmetric ∨
        toLowerStr ((headerTokens s).getD 4 []) = Hermitian) →
      ParseHeader mx s = .ok ({ mx with
        Format := toLowerStr ((headerTokens s).getD 2 []),
        Typ := toLowerStr ((headerTokens s).getD 3 []),
        Symmetry := toLowerStr ((headerTokens s).getD 4 []) }, (readLine s).2.1)) ∧
    (ParseHeader ({} : Matrix) ("%MatrixMarket matrix coordinate real general".data)
      = .error (.headerSentinel ("%MatrixMarket".data))) :=
  ⟨ParseHeader_err_count, ParseHeader_err_sentinel, ParseHeader_err_object,
   ParseHeader_err_format, ParseHeader_err_type, ParseHeader_err_symmetry,
   ParseHeader_ok, by decide⟩

theorem C7_header_contract_witness :
    ParseHeader ({} : Matrix) ("a b".data)
      = .error (.headerTokenCount (headerTokens ("a b".data))) :=
  C7_header_contract.1 {} ("a b".data) (by decide)

/-- C9 counterexample: the comment phase of the quoted example does
accumulate the two comment lines verbatim, but the following size line
10 10 10 carries no terminating newline, so dimension parsing returns
the io.EOF error instead of dimensions (10,10) with 10 lines. -/
theorem C9_counterexample :
    ParseComment ({} : Matrix) ("%Hello\n%World!\n10 10 10".data)
      = .ok ({ comment := "%Hello\n%World!\n".data }, "10 10 10".data) ∧
    ParseDimensions { Format := FormatCoordinate } ("10 10 10".data) = .error .eof := by
  decide

/-- C9 (amended): comment skipping never errors, consumes exactly a
prefix of the stream, stops only at a byte that is not percent,
newline, space or tab, and accumulates the consumed lines verbatim (the
quoted example yields comment %Hello nl %World! nl); but the remaining
size line parses only when newline-terminated: without one it fails
with the io.EOF error. -/
theorem C9_comment_accumulation :
    (∀ (mx : Matrix) (s : Str), ∃ p, ParseComment mx s = .ok p) ∧
    (∀ s : Str, (commentLoop s).1 ++ (commentLoop s).2 = s) ∧
    (∀ (s : Str) (c : Char) (t : Str), (commentLoop s).2 = c :: t →
      ¬(c = '%' ∨ c = '\n' ∨ c = ' ' ∨ c = '\t')) ∧
    (ParseComment ({} : Matrix) ("%Hello\n%World!\n10 10 10".data)
      = .ok ({ comment := "%Hello\n%World!\n".data }, "10 10 10".data)) ∧
    (ParseDimensions { Format := FormatCoordinate } ("10 10 10".data) = .error .eof) ∧
    (ParseDimensions { Format := FormatCoordinate } ("10 10 10\n".data)
      = .ok ({ Format := FormatCoordinate, n := 10, m := 10, lines := 10 }, [])) :=
  ⟨fun mx s => ⟨_, rfl⟩, commentLoop_parts, commentLoop_stop_cond,
   by decide, by decide, by decide⟩

theorem C9_comment_accumulation_witness :
    ¬('1' = '%' ∨ '1' = '\n' ∨ '1' = ' ' ∨ '1' = '\t') ∧
    (commentLoop ("%x\n1 2".data)).1 ++ (commentLoop ("%x\n1 2".data)).2 = "%x\n1 2".data :=
  ⟨C9_comment_accumulation.2.2.1 ("%x\n1 2".data) '1' (" 2".data) (by decide),
   C9_comment_accumulation.2.1 ("%x\n1 2".data)⟩

/-- C10: refuted as stated - the claim asserts every buffer write stays
in bounds, but an array body with more parseable value lines than rows
times cols drives the write index past the buffer end: the Go code
panics with an index-out-of-range (modelled as the runtimePanic error),
so ParseArrayFormat neither returns a matrix nor an ordinary error. -/
theorem C10_array_overflow_panic :
    Parse {} ("%%MatrixMarket matrix array real general\n1 1\n1.0\n2.0\n".data)
      = .error .runtimePanic ∧
    ParseArrayFormat { Format := FormatArray, n := 1, m := 1 } ("1.0\n2.0".data)
      = .error .runtimePanic := by decide

end Gomm
